import Mathlib

/-!
Shallow embedding of `examples/firesat/satellites/main_constellation.py`.

The constellation state-stepping engine is translated directly from the
source.  External collaborators (skyfield orbital propagation, the numeric
elevation-angle computation, and the per-satellite field-of-regard
configuration) are modelled as an oracle environment `Env`: the source
consumes them as pure functions of the satellite index and the time, so the
embedding takes them as parameters.  Satellite names are modelled by their
index in the satellite list (the source keys the per-satellite dictionaries
by `self.names[i]`, with distinct names assumed).  Time stamps (`datetime`
plus `timedelta`) are modelled as integers; angles and coordinates (floats
in the source, only ever produced by the oracles and compared) are modelled
as rationals.  The real-valued geometry function `compute_min_elevation`
that one numerical claim is about is embedded separately over `ℝ`.
-/

namespace FireSat

abbrev Time := Int

/-- A latitude-longitude-altitude subpoint as produced by the external
propagation collaborator (`wgs84.subpoint(satellite.at(t))`). -/
structure Pos where
  lat : ℚ
  lon : ℚ
  alt : ℚ
deriving DecidableEq, Repr

/-- Payload of an inbound `FireStarted` message. -/
structure FireStarted where
  fireId : Nat
  start : Time
  latitude : ℚ
  longitude : ℚ
deriving DecidableEq, Repr

/-- Payload of an inbound `GroundLocation` message. -/
structure GroundLocation where
  groundId : Nat
  latitude : ℚ
  longitude : ℚ
  elevAngle : ℚ
  operational : Bool
deriving DecidableEq, Repr

/-- An entry of `Constellation.fires` (appended by `on_fire`). -/
structure Fire where
  fireId : Nat
  start : Time
  latitude : ℚ
  longitude : ℚ
deriving DecidableEq, Repr

/-- One row of the `grounds` DataFrame.  The DataFrame always carries the
default `RangeIndex`, so a row's label is its position in this list. -/
structure GroundRow where
  groundId : Nat
  latitude : ℚ
  longitude : ℚ
  elevAngle : ℚ
  operational : Bool
deriving DecidableEq, Repr

/-- An entry of `Constellation.detect`: the per-satellite detection
timestamps (keyed by satellite index, standing for the name) together with
the `firstDetect` / `firstDetector` latch fields. -/
structure DetectRecord where
  fireId : Nat
  sat : List (Option Time)
  firstDetect : Bool
  firstDetector : Option Nat
deriving DecidableEq, Repr

/-- An entry of `Constellation.report`. -/
structure ReportRecord where
  fireId : Nat
  sat : List (Option Time)
  firstReport : Bool
  firstReporter : Option Nat
  firstReportedTo : Option Nat
deriving DecidableEq, Repr

/-- A `notify_observers` call made by `tock`, carrying the payload fields
read from the detect/report record. -/
inductive Note where
  | detected (fireId : Nat) (detTime : Option Time) (detBy : Option Nat)
  | reported (fireId : Nat) (repTime : Option Time) (repBy : Option Nat) (repTo : Option Nat)
deriving DecidableEq, Repr

/-- Oracle environment standing for the external collaborators:
`elev i t p` is `get_elevation_angle(t, satellites[i], wgs84.latlon p)`;
`minElevFire i t` is `compute_min_elevation(next_positions[i].elevation.m,
FIELD_OF_REGARD[i])` evaluated at time `t` (the altitude at `t` is itself a
function of `i` and `t`); `minElevEpoch i` is the same expression evaluated
at the satellite's epoch in `__init__`; `propagate i t` is
`wgs84.subpoint(satellites[i].at(t))`. -/
structure Env where
  elev : Nat → Time → ℚ × ℚ → ℚ
  minElevFire : Nat → Time → ℚ
  minElevEpoch : Nat → ℚ
  propagate : Nat → Time → Pos

/-- The mutable state of one `Constellation` entity.  `numSats` is the
length of the (immutable) satellite list; `time` / `next_time` are the
`Entity` base-class clock.

Modelled from the spec: the `Entity` base class of the tools library is not
under `src/`; per the spec, `tick` computes the next scenario time
`currentTime + Δt` without publishing it and `tock` commits it, so the
clock is embedded as the pair `time` / `next_time` with `tick` setting
`next_time := time + Δt` and `tock` setting `time := next_time`;
`initialize` sets both to the initial scenario time. -/
structure Constellation where
  numSats : Nat
  fires : List Fire
  grounds : List GroundRow
  detect : List DetectRecord
  report : List ReportRecord
  positions : List (Option Pos)
  next_positions : List (Option Pos)
  min_elevations_fire : List ℚ
  time : Time
  next_time : Time
deriving Repr

/-- Translation of `check_in_view`: true iff the elevation angle of the
satellite with respect to the ground location is at least the minimum
elevation angle constraint. -/
def check_in_view (elevationFromFire : ℚ) (min_elevation : ℚ) : Bool :=
  decide (min_elevation ≤ elevationFromFire)

/-- Loop of `check_in_range` over `grounds.iterrows()`, carrying the row
label `k` (the positional `RangeIndex` label).  Non-operational rows are
skipped; the first operational row whose required elevation angle is met
stops the loop with `(True, k)`. -/
def check_in_range_from (e : Env) (sat : Nat) (t : Time) :
    Nat → List GroundRow → Bool × Option Nat
  | _, [] => (false, none)
  | k, ground :: rest =>
    if ground.operational then
      if decide (ground.elevAngle ≤ e.elev sat t (ground.latitude, ground.longitude)) then
        (true, some k)
      else
        check_in_range_from e sat t (k + 1) rest
    else
      check_in_range_from e sat t (k + 1) rest

/-- Translation of `check_in_range(t, satellite, grounds)`. -/
def check_in_range (e : Env) (sat : Nat) (t : Time) (grounds : List GroundRow) :
    Bool × Option Nat :=
  check_in_range_from e sat t 0 grounds

/-- The in-view test made by `tick` for satellite `i` against one fire at
the next scenario time, with the satellite's just-recomputed minimum
elevation angle. -/
def inViewAt (e : Env) (tNext : Time) (fire : Fire) (i : Nat) : Bool :=
  check_in_view (e.elev i tNext (fire.latitude, fire.longitude)) (e.minElevFire i tNext)

/-- The body of the inner fire loop of `Constellation.tick` for satellite
`i` and one fire: the in-view check and detection write (the null guard on
the detection entry is commented out in the source), the `firstDetect` /
`firstDetector` latch, and the report step guarded by a non-null detection
entry (of the just-updated record) and a null report entry. -/
def procFire (e : Env) (tNext : Time) (grounds : List GroundRow) (i : Nat)
    (fire : Fire) (d : DetectRecord) (r : ReportRecord) :
    DetectRecord × ReportRecord :=
  let isInView := inViewAt e tNext fire i
  let d1 :=
    if isInView then
      let d0 := { d with sat := d.sat.set i (some tNext) }
      if d0.firstDetector = none then
        { d0 with firstDetect := true, firstDetector := some i }
      else d0
    else d
  let r1 :=
    if (d1.sat.getD i none) ≠ none ∧ (r.sat.getD i none) = none then
      let res := check_in_range e i tNext grounds
      if res.1 then
        let r0 := { r with sat := r.sat.set i (some tNext) }
        if r0.firstReporter = none then
          { r0 with firstReport := true, firstReporter := some i,
                    firstReportedTo := res.2 }
        else r0
      else r
    else r
  (d1, r1)

/-- Pointwise map over the index-aligned `fires` / `detect` / `report`
lists, mirroring `for j, fire in enumerate(self.fires)` reading
`self.detect[j]` and `self.report[j]`. -/
def zip3With (f : Fire → DetectRecord → ReportRecord → DetectRecord × ReportRecord) :
    List Fire → List DetectRecord → List ReportRecord →
    List DetectRecord × List ReportRecord
  | fire :: fs, d :: ds, r :: rs =>
    let p := f fire d r
    let rest := zip3With f fs ds rs
    (p.1 :: rest.1, p.2 :: rest.2)
  | _, _, _ => ([], [])

/-- The satellite-major double loop of `tick` over the given satellite
indices: for each satellite in turn, the fire loop updates every
detect/report record pair. -/
def tickRecords (e : Env) (tNext : Time) (grounds : List GroundRow) (fires : List Fire)
    (is : List Nat) (p : List DetectRecord × List ReportRecord) :
    List DetectRecord × List ReportRecord :=
  is.foldl (fun dr i => zip3With (procFire e tNext grounds i) fires dr.1 dr.2) p

/-- The effect of the double loop of `tick` on one detect/report record
pair: the fire-loop bodies for the given satellite indices, in order. -/
def foldSat (e : Env) (tNext : Time) (grounds : List GroundRow) (fire : Fire)
    (is : List Nat) (p : DetectRecord × ReportRecord) : DetectRecord × ReportRecord :=
  is.foldl (fun p i => procFire e tNext grounds i fire p.1 p.2) p

/-- Translation of `Constellation.tick(time_step)`: computes
`next_positions` at `currentTime + Δt`, recomputes the per-satellite
minimum elevation angles, and runs the satellite-major double loop over
fires. -/
def Constellation.tick (e : Env) (dt : Time) (s : Constellation) : Constellation :=
  let tNext := s.time + dt
  let dr := tickRecords e tNext s.grounds s.fires (List.range s.numSats) (s.detect, s.report)
  { s with
    next_time := tNext
    next_positions := (List.range s.numSats).map (fun i => some (e.propagate i tNext))
    min_elevations_fire := (List.range s.numSats).map (fun i => e.minElevFire i tNext)
    detect := dr.1
    report := dr.2 }

/-- The detected-notification payload emitted for one detect record whose
`firstDetect` flag is set: `fireId`, the detecting satellite's detection
timestamp (`newly_detected_fire[detector]`), and the detector. -/
def detNote (d : DetectRecord) : Option Note :=
  if d.firstDetect then
    some (Note.detected d.fireId
      (match d.firstDetector with
        | some i => d.sat.getD i none
        | none => none)
      d.firstDetector)
  else none

/-- The reported-notification payload emitted for one report record whose
`firstReport` flag is set. -/
def repNote (r : ReportRecord) : Option Note :=
  if r.firstReport then
    some (Note.reported r.fireId
      (match r.firstReporter with
        | some i => r.sat.getD i none
        | none => none)
      r.firstReporter r.firstReportedTo)
  else none

/-- Translation of `Constellation.tock()`: commits `positions`, walks the
detect list emitting a detected notification for every record with
`firstDetect` set (the clearing of `firstDetect` is commented out in the
source), then walks the report list emitting a reported notification for
every record with `firstReport` set and clearing `firstReport`
unconditionally on every record, and finally commits the clock. -/
def Constellation.tock (s : Constellation) : Constellation × List Note :=
  ({ s with
      positions := s.next_positions
      report := s.report.map (fun r => { r with firstReport := false })
      time := s.next_time },
   s.detect.filterMap detNote ++ s.report.filterMap repNote)

/-- Translation of `Constellation.on_fire`: appends the fire and
freshly-initialized detect/report records (per-satellite entries all null,
latch fields cleared). -/
def Constellation.on_fire (f : FireStarted) (s : Constellation) : Constellation :=
  { s with
    fires := s.fires ++ [{ fireId := f.fireId, start := f.start,
                           latitude := f.latitude, longitude := f.longitude }]
    detect := s.detect ++ [{ fireId := f.fireId,
                             sat := List.replicate s.numSats none,
                             firstDetect := false, firstDetector := none }]
    report := s.report ++ [{ fireId := f.fireId,
                             sat := List.replicate s.numSats none,
                             firstReport := false, firstReporter := none,
                             firstReportedTo := none }] }

/-- Translation of `Constellation.on_ground`.  The membership test
`location.groundId in self.grounds.groundId` is a pandas `Series.__contains__`,
which tests the series INDEX — here always the default `RangeIndex`
`0..n-1` — so it holds iff `groundId < ` the current number of rows.  In
that branch the source assigns through chained indexing
(`self.grounds[mask].latitude = ...`), which writes to a temporary copy and
leaves `self.grounds` unchanged, so the branch is a no-op on the state.
Otherwise the new row is appended with `ignore_index=True`. -/
def Constellation.on_ground (g : GroundLocation) (s : Constellation) : Constellation :=
  if g.groundId < s.grounds.length then
    s
  else
    { s with grounds := s.grounds ++ [{ groundId := g.groundId,
                                        latitude := g.latitude,
                                        longitude := g.longitude,
                                        elevAngle := g.elevAngle,
                                        operational := g.operational }] }

/-- Translation of `Constellation.initialize(init_time)` applied to an
already-running entity: resets the ground registry to the empty table and
seeds `positions = next_positions` from each satellite's position at
`init_time`; the base-class clock is set to `init_time`. -/
def Constellation.reinit (e : Env) (init_time : Time) (s : Constellation) : Constellation :=
  { s with
    grounds := []
    positions := (List.range s.numSats).map (fun i => some (e.propagate i init_time))
    next_positions := (List.range s.numSats).map (fun i => some (e.propagate i init_time))
    time := init_time
    next_time := init_time }

/-- The state reached by `__init__` (empty fires/detect/report, minimum
elevations computed at each satellite's epoch) followed by
`initialize(t0)`.  Runs considered below start here; before `initialize`
the source has `grounds = None` and ticks would fail on it. -/
def initState (n : Nat) (e : Env) (t0 : Time) : Constellation :=
  { numSats := n
    fires := []
    grounds := []
    detect := []
    report := []
    positions := (List.range n).map (fun i => some (e.propagate i t0))
    next_positions := (List.range n).map (fun i => some (e.propagate i t0))
    min_elevations_fire := (List.range n).map (fun i => e.minElevEpoch i)
    time := t0
    next_time := t0 }

/-- One operation of a run: an inbound fire or ground message, a tick, a
tock, or a (re-)initialization. -/
inductive Op where
  | fire (f : FireStarted)
  | ground (g : GroundLocation)
  | tick (dt : Time)
  | tock
  | init (t : Time)
deriving DecidableEq, Repr

/-- One operation applied to the state, with the notifications it emits. -/
def step (e : Env) (s : Constellation) : Op → Constellation × List Note
  | .fire f => (s.on_fire f, [])
  | .ground g => (s.on_ground g, [])
  | .tick dt => (s.tick e dt, [])
  | .tock => s.tock
  | .init t => (s.reinit e t, [])

/-- A run: the final state and the concatenated notifications, in emission
order. -/
def run (e : Env) (s : Constellation) : List Op → Constellation × List Note
  | [] => (s, [])
  | op :: ops =>
    let p := step e s op
    let q := run e p.1 ops
    (q.1, p.2 ++ q.2)

/-- Whether a note is a detected notification carrying the given fireId. -/
def Note.isDetFid (fid : Nat) : Note → Bool
  | .detected f _ _ => f == fid
  | _ => false

/-- Whether a note is a reported notification carrying the given fireId. -/
def Note.isRepFid (fid : Nat) : Note → Bool
  | .reported f _ _ _ => f == fid
  | _ => false

/-- Whether a note is a detected notification. -/
def Note.isDet : Note → Bool
  | .detected _ _ _ => true
  | _ => false

/-- Number of detected notifications for a fireId in a notification list. -/
def countDet (ns : List Note) (fid : Nat) : Nat :=
  ns.countP (Note.isDetFid fid)

/-- Number of reported notifications for a fireId in a notification list. -/
def countRep (ns : List Note) (fid : Nat) : Nat :=
  ns.countP (Note.isRepFid fid)

/-- The fireIds of the fire-started events of an operation list, in
order. -/
def opsFids : List Op → List Nat
  | [] => []
  | .fire f :: ops => f.fireId :: opsFids ops
  | _ :: ops => opsFids ops

/-- Well-formedness of one detect record for a constellation of `n`
satellites: the per-satellite entry list has one slot per satellite, the
`firstDetect` flag holds exactly when `firstDetector` is set, and
`firstDetector` is set exactly when some per-satellite timestamp is
non-null. -/
def DetInvRec (n : Nat) (d : DetectRecord) : Prop :=
  d.sat.length = n ∧
  (d.firstDetect = true ↔ d.firstDetector ≠ none) ∧
  (d.firstDetector ≠ none ↔ ∃ i, d.sat.getD i none ≠ none)

/-- Well-formedness of one report record: one slot per satellite, and the
`firstReport` flag is only ever set together with `firstReporter`. -/
def RepInvRec (n : Nat) (r : ReportRecord) : Prop :=
  r.sat.length = n ∧ (r.firstReport = true → r.firstReporter ≠ none)

/-- The state invariant maintained by every operation: the fires, detect
and report lists are index-aligned (same length, same fireId at each
index), every record is well-formed, and a set `firstReport` flag always
has the `firstDetect` flag of the paired detect record set. -/
def Inv (s : Constellation) : Prop :=
  s.detect.length = s.fires.length ∧
  s.report.length = s.fires.length ∧
  (∀ (j : Nat) (d : DetectRecord), s.detect[j]? = some d →
    s.fires[j]?.map Fire.fireId = some d.fireId ∧ DetInvRec s.numSats d) ∧
  (∀ (j : Nat) (r : ReportRecord), s.report[j]? = some r →
    s.fires[j]?.map Fire.fireId = some r.fireId ∧ RepInvRec s.numSats r) ∧
  (∀ (j : Nat) (d : DetectRecord) (r : ReportRecord),
    s.detect[j]? = some d → s.report[j]? = some r →
    r.firstReport = true → d.firstDetect = true)

/-- A concrete oracle under which every satellite always sees every point
(elevation angle 90 degrees against a 0-degree constraint). -/
def envAlways : Env :=
  { elev := fun _ _ _ => 90
    minElevFire := fun _ _ => 0
    minElevEpoch := fun _ => 0
    propagate := fun _ _ => { lat := 0, lon := 0, alt := 0 } }

/-- A sample inbound fire-started message. -/
def fsA : FireStarted := { fireId := 1, start := 0, latitude := 10, longitude := 20 }

/-- A second sample inbound fire-started message. -/
def fsB : FireStarted := { fireId := 2, start := 0, latitude := 30, longitude := 40 }

/-- A sample ground-location message with groundId 5, operational. -/
def glA : GroundLocation :=
  { groundId := 5, latitude := 1, longitude := 2, elevAngle := 3, operational := true }

/-- The same ground station as `glA` but now non-operational. -/
def glB : GroundLocation :=
  { groundId := 5, latitude := 1, longitude := 2, elevAngle := 3, operational := false }

/-- A sample ground-location message with groundId 0, operational. -/
def glC : GroundLocation :=
  { groundId := 0, latitude := 1, longitude := 2, elevAngle := 3, operational := true }

/-- The same ground station as `glC` but now non-operational. -/
def glD : GroundLocation :=
  { groundId := 0, latitude := 1, longitude := 2, elevAngle := 3, operational := false }

/-- The fire entry created for fsA. -/
def fireA : Fire := { fireId := 1, start := 0, latitude := 10, longitude := 20 }

/-- The detect record created for fsA before any tick. -/
def dFresh : DetectRecord :=
  { fireId := 1, sat := [none], firstDetect := false, firstDetector := none }

/-- The detect record for fsA after an in-view tick at scenario time 1. -/
def dSeen : DetectRecord :=
  { fireId := 1, sat := [some 1], firstDetect := true, firstDetector := some 0 }

/-- A ground row whose `groundId` field (7) differs from its row position
(0) in a one-row table. -/
def grSeven : GroundRow :=
  { groundId := 7, latitude := 0, longitude := 0, elevAngle := 0, operational := true }

/-- Whether a ground row is operational and its required elevation angle is
met by the elevation-angle computation for the given satellite and time:
the condition on which the `check_in_range` loop stops. -/
def groundMatch (e : Env) (sat : Nat) (t : Time) (g : GroundRow) : Bool :=
  g.operational && decide (g.elevAngle ≤ e.elev sat t (g.latitude, g.longitude))

/-- Translation of `compute_min_elevation(altitude, field_of_regard)` over
the reals: the float constants and the numpy trigonometry
(`np.radians x = x * pi / 180`, `np.degrees x = x * 180 / pi`) are read off
the source verbatim. -/
noncomputable def compute_min_elevation (altitude field_of_regard : ℝ) : ℝ :=
  let earth_equatorial_radius : ℝ := 6378137.000000000
  let earth_polar_radius : ℝ := 6356752.314245179
  let earth_mean_radius : ℝ := (2 * earth_equatorial_radius + earth_polar_radius) / 3
  let sin_eta := Real.sin ((field_of_regard / 2) * (Real.pi / 180))
  let sin_rho := earth_mean_radius / (earth_mean_radius + altitude)
  let cos_epsilon := sin_eta / sin_rho
  if cos_epsilon > 1 then 0.0
  else Real.arccos cos_epsilon * (180 / Real.pi)

/-- The mean spherical earth radius used throughout the geometry module:
(2 * equatorial + polar) / 3. -/
noncomputable def earth_mean_radius : ℝ :=
  (2 * 6378137.000000000 + 6356752.314245179) / 3

end FireSat

namespace FireSat

/-! ## Lemmas and claim theorems -/

/-- Unfolding of compute_min_elevation with its local bindings
substituted. -/
theorem compute_min_elevation_eq (altitude field_of_regard : ℝ) :
    compute_min_elevation altitude field_of_regard =
      if Real.sin ((field_of_regard / 2) * (Real.pi / 180)) /
          (earth_mean_radius / (earth_mean_radius + altitude)) > 1 then 0.0
      else Real.arccos (Real.sin ((field_of_regard / 2) * (Real.pi / 180)) /
          (earth_mean_radius / (earth_mean_radius + altitude))) * (180 / Real.pi) := rfl

/-- The mean earth radius is positive. -/
theorem earth_mean_radius_pos : 0 < earth_mean_radius := by
  rw [earth_mean_radius]; norm_num

/-- C8 counterexample: a field of regard of 360 degrees is at least 180
degrees, yet compute_min_elevation returns 90 degrees, not 0.0, at altitude
500000 (the sine of the half angle, sin 180 degrees, is 0, so the grazing
cosine is 0 and the arccos branch yields 90). -/
theorem c8_counterexample :
    (180 : ℝ) ≤ 360 ∧ compute_min_elevation 500000 360 ≠ 0 := by
  refine ⟨by norm_num, ?_⟩
  rw [compute_min_elevation_eq]
  have h1 : ((360 : ℝ) / 2) * (Real.pi / 180) = Real.pi := by
    field_simp; ring
  rw [h1, Real.sin_pi, zero_div]
  rw [if_neg (by norm_num)]
  rw [Real.arccos_zero]
  have : Real.pi / 2 * (180 / Real.pi) = 90 := by
    field_simp [Real.pi_ne_zero]; ring
  rw [this]
  norm_num

/-- C8 (amended): at a field of regard of exactly 180 degrees the grazing
cosine is at least 1 for every altitude at least 0, and
compute_min_elevation returns 0.0 (for larger fields of regard the sine of
the half angle decreases again and the result can be nonzero). -/
theorem c8_amended (altitude : ℝ) (h : 0 ≤ altitude) :
    compute_min_elevation altitude 180 = 0 := by
  rw [compute_min_elevation_eq]
  have hsin : Real.sin (((180 : ℝ) / 2) * (Real.pi / 180)) = 1 := by
    have h2 : ((180 : ℝ) / 2) * (Real.pi / 180) = Real.pi / 2 := by
      field_simp; ring
    rw [h2, Real.sin_pi_div_two]
  rw [hsin]
  have hR := earth_mean_radius_pos
  have hRA : 0 < earth_mean_radius + altitude := by linarith
  have hdiv : (1 : ℝ) / (earth_mean_radius / (earth_mean_radius + altitude)) =
      (earth_mean_radius + altitude) / earth_mean_radius := one_div_div _ _
  rw [hdiv]
  rcases eq_or_lt_of_le h with h0 | hpos
  · have h1 : (earth_mean_radius + altitude) / earth_mean_radius = 1 := by
      rw [← h0, add_zero]
      exact div_self (ne_of_gt hR)
    rw [h1, if_neg (by norm_num), Real.arccos_one, zero_mul]
  · have hgt : (1 : ℝ) < (earth_mean_radius + altitude) / earth_mean_radius := by
      rw [lt_div_iff₀ hR]; linarith
    rw [if_pos hgt]
    norm_num

/-- C8 witness: the concrete check from the spec, minElevation(500000, 180)
is 0.0. -/
theorem c8_witness : compute_min_elevation 500000 180 = 0 :=
  c8_amended 500000 (by norm_num)

/-- The loop of check_in_range starting at row label k finds the first
matching row of the remaining table, reporting its label offset by k. -/
theorem check_in_range_from_eq (e : Env) (sat : Nat) (t : Time)
    (grounds : List GroundRow) :
    ∀ k, check_in_range_from e sat t k grounds =
      ((grounds.findIdx? (groundMatch e sat t)).isSome,
        (grounds.findIdx? (groundMatch e sat t)).map (fun a => a + k)) := by
  induction grounds with
  | nil => intro k; simp [check_in_range_from]
  | cons g rest ih =>
    intro k
    by_cases hop : g.operational = true
    · by_cases hel : g.elevAngle ≤ e.elev sat t (g.latitude, g.longitude)
      · simp [check_in_range_from, hop, hel, List.findIdx?_cons, groundMatch]
      · rw [check_in_range_from, if_pos hop, if_neg (by simpa using hel), ih (k + 1)]
        rw [List.findIdx?_cons]
        have hm : groundMatch e sat t g = false := by
          simp [groundMatch, hop, hel]
        rw [hm]
        cases hfind : rest.findIdx? (groundMatch e sat t) with
        | none => simp [hfind]
        | some a => simp [hfind]; omega
    · rw [check_in_range_from, if_neg hop, ih (k + 1)]
      rw [List.findIdx?_cons]
      have hm : groundMatch e sat t g = false := by
        simp [groundMatch, hop]
      rw [hm]
      cases hfind : rest.findIdx? (groundMatch e sat t) with
      | none => simp [hfind]
      | some a => simp [hfind]; omega

/-- C3 (amended): check_in_range iterates the ground table in insertion
order, skips non-operational rows, and stops at the first row whose own
required elevation angle is met, returning true together with that row's
positional table index (its RangeIndex label) — which is the stored
groundId field only when the two coincide; with no matching operational row
it returns false and no identifier. -/
theorem c3_amended (e : Env) (sat : Nat) (t : Time) (grounds : List GroundRow) :
    check_in_range e sat t grounds =
      ((grounds.findIdx? (groundMatch e sat t)).isSome,
        grounds.findIdx? (groundMatch e sat t)) := by
  rw [check_in_range, check_in_range_from_eq e sat t grounds 0]
  cases hfind : grounds.findIdx? (groundMatch e sat t) <;> simp

/-- C3 counterexample: a single operational ground row whose groundId field
is 7 and whose elevation requirement is met sits at table position 0;
check_in_range returns true with identifier 0, the row position, not the
row's groundId 7. -/
theorem c3_counterexample :
    (check_in_range envAlways 0 0 [grSeven]).1 = true ∧
    groundMatch envAlways 0 0 grSeven = true ∧
    (check_in_range envAlways 0 0 [grSeven]).2 ≠ some grSeven.groundId := by
  decide

/-- C4: the code evaluates to two rows for groundId 5 after two
GroundLocation messages for groundId 5 (the pandas membership test checks
the RangeIndex, and 5 is not a row label of a 1-row table, so the second
message is appended instead of updating), and for groundId 0 the second
message hits the update branch whose chained assignments are no-ops,
leaving the single row with the first message's operational flag. -/
theorem c4_evidence :
    (((initState 1 envAlways 0).on_ground glA).on_ground glB).grounds.map
        GroundRow.groundId = [5, 5] ∧
    (((initState 1 envAlways 0).on_ground glA).on_ground glB).grounds.map
        GroundRow.operational = [true, false] ∧
    (((initState 1 envAlways 0).on_ground glC).on_ground glD).grounds =
      [{ groundId := 0, latitude := 1, longitude := 2, elevAngle := 3,
         operational := true }] := by
  decide

/-- C9 counterexample: with one satellite, after one fire-started event the
satellite, detect and report collections happen to all have length 1, but
the on_fire operation for a second fire makes the detect and report lists
have length 2 while the satellite list still has length 1 — detect and
report records are per fire, not per satellite, so the claimed invariant is
not preserved. -/
theorem c9_counterexample :
    ((run envAlways (initState 1 envAlways 0) [Op.fire fsA]).1.detect.length =
      (run envAlways (initState 1 envAlways 0) [Op.fire fsA]).1.numSats) ∧
    ((run envAlways (initState 1 envAlways 0) [Op.fire fsA, Op.fire fsB]).1.detect.length ≠
      (run envAlways (initState 1 envAlways 0) [Op.fire fsA, Op.fire fsB]).1.numSats) := by
  decide

/-- C1 counterexample: one fire, one always-in-view satellite, two
tick/tock pairs — the Detected notification for fireId 1 is emitted twice
(firstDetect is never cleared), refuting at-most-once emission. -/
theorem c1_counterexample :
    countDet (run envAlways (initState 1 envAlways 0)
      [Op.fire fsA, Op.tick 1, Op.tock, Op.tick 1, Op.tock]).2 1 = 2 := by
  decide

/-- C2 counterexample: after a tick at which the fire is in view the
satellite's detection entry is some 1, and a second tick with the fire
still in view overwrites it to some 2 — the entry is not frozen once
non-null, because the null guard is commented out in the source. -/
theorem c2_counterexample :
    ((run envAlways (initState 1 envAlways 0) [Op.fire fsA, Op.tick 1]).1.detect.map
      (fun d => d.sat.getD 0 none)) = [some 1] ∧
    ((run envAlways (initState 1 envAlways 0)
        [Op.fire fsA, Op.tick 1, Op.tick 2]).1.detect.map
      (fun d => d.sat.getD 0 none)) = [some 2] := by
  decide

/-! ### Closed forms for the fire-loop body -/

/-- The detect-record half of the fire-loop body, written out. -/
theorem procFire_fst (e : Env) (tNext : Time) (grounds : List GroundRow) (i : Nat)
    (fire : Fire) (d : DetectRecord) (r : ReportRecord) :
    (procFire e tNext grounds i fire d r).1 =
      if inViewAt e tNext fire i then
        if d.firstDetector = none then
          { d with sat := d.sat.set i (some tNext), firstDetect := true,
                   firstDetector := some i }
        else { d with sat := d.sat.set i (some tNext) }
      else d := by
  cases hv : inViewAt e tNext fire i <;>
    cases hd : d.firstDetector <;>
      simp [procFire, hv, hd]

/-- The report-record half of the fire-loop body, written out; the guard
reads the just-updated detect record. -/
theorem procFire_snd (e : Env) (tNext : Time) (grounds : List GroundRow) (i : Nat)
    (fire : Fire) (d : DetectRecord) (r : ReportRecord) :
    (procFire e tNext grounds i fire d r).2 =
      if ((procFire e tNext grounds i fire d r).1.sat.getD i none) ≠ none ∧
          (r.sat.getD i none) = none then
        if (check_in_range e i tNext grounds).1 then
          if r.firstReporter = none then
            { r with sat := r.sat.set i (some tNext), firstReport := true,
                     firstReporter := some i,
                     firstReportedTo := (check_in_range e i tNext grounds).2 }
          else { r with sat := r.sat.set i (some tNext) }
        else r
      else r := rfl

/-- The fire-loop body does not change the detect record's fireId. -/
theorem procFire_fst_fireId (e : Env) (tNext : Time) (grounds : List GroundRow)
    (i : Nat) (fire : Fire) (d : DetectRecord) (r : ReportRecord) :
    (procFire e tNext grounds i fire d r).1.fireId = d.fireId := by
  rw [procFire_fst]
  split_ifs <;> rfl

/-- The fire-loop body does not change the length of the detect record's
per-satellite entry list. -/
theorem procFire_fst_satLen (e : Env) (tNext : Time) (grounds : List GroundRow)
    (i : Nat) (fire : Fire) (d : DetectRecord) (r : ReportRecord) :
    (procFire e tNext grounds i fire d r).1.sat.length = d.sat.length := by
  rw [procFire_fst]
  split_ifs <;> simp

/-- Evolution of firstDetector through one fire-loop body: a set value is
kept, an unset value is latched to the satellite index exactly when the
fire is in view. -/
theorem procFire_fst_firstDetector (e : Env) (tNext : Time) (grounds : List GroundRow)
    (i : Nat) (fire : Fire) (d : DetectRecord) (r : ReportRecord) :
    (procFire e tNext grounds i fire d r).1.firstDetector =
      d.firstDetector.or (if inViewAt e tNext fire i then some i else none) := by
  rw [procFire_fst]
  cases hv : inViewAt e tNext fire i <;> cases hd : d.firstDetector <;> simp [hd]

/-- Evolution of firstDetect through one fire-loop body. -/
theorem procFire_fst_firstDetect (e : Env) (tNext : Time) (grounds : List GroundRow)
    (i : Nat) (fire : Fire) (d : DetectRecord) (r : ReportRecord) :
    (procFire e tNext grounds i fire d r).1.firstDetect =
      (d.firstDetect || (inViewAt e tNext fire i && d.firstDetector.isNone)) := by
  rw [procFire_fst]
  cases hv : inViewAt e tNext fire i <;> cases hd : d.firstDetector <;> simp [hd]

/-- The fire-loop body for satellite i leaves the other satellites'
detection entries unchanged. -/
theorem procFire_fst_sat_getD_ne (e : Env) (tNext : Time) (grounds : List GroundRow)
    (i : Nat) (fire : Fire) (d : DetectRecord) (r : ReportRecord) (i' : Nat)
    (h : i' ≠ i) :
    (procFire e tNext grounds i fire d r).1.sat.getD i' none = d.sat.getD i' none := by
  rw [procFire_fst]
  have hset : (d.sat.set i (some tNext)).getD i' none = d.sat.getD i' none := by
    simp [List.getD_eq_getElem?_getD, List.getElem?_set, (Ne.symm h)]
  split
  · split <;> simpa using hset
  · rfl

/-- The fire-loop body for satellite i writes that satellite's detection
entry exactly when the fire is in view (regardless of its prior value). -/
theorem procFire_fst_sat_getD_eq (e : Env) (tNext : Time) (grounds : List GroundRow)
    (i : Nat) (fire : Fire) (d : DetectRecord) (r : ReportRecord)
    (h : i < d.sat.length) :
    (procFire e tNext grounds i fire d r).1.sat.getD i none =
      if inViewAt e tNext fire i then some tNext else d.sat.getD i none := by
  rw [procFire_fst]
  have hset : (d.sat.set i (some tNext)).getD i none = some tNext := by
    simp [List.getD_eq_getElem?_getD, List.getElem?_set, h]
  cases hv : inViewAt e tNext fire i
  · simp
  · simp only [if_pos]
    split <;> simpa using hset

/-- The fire-loop body does not change the report record's fireId. -/
theorem procFire_snd_fireId (e : Env) (tNext : Time) (grounds : List GroundRow)
    (i : Nat) (fire : Fire) (d : DetectRecord) (r : ReportRecord) :
    (procFire e tNext grounds i fire d r).2.fireId = r.fireId := by
  rw [procFire_snd]
  split_ifs <;> rfl

/-- The fire-loop body does not change the length of the report record's
per-satellite entry list. -/
theorem procFire_snd_satLen (e : Env) (tNext : Time) (grounds : List GroundRow)
    (i : Nat) (fire : Fire) (d : DetectRecord) (r : ReportRecord) :
    (procFire e tNext grounds i fire d r).2.sat.length = r.sat.length := by
  rw [procFire_snd]
  split_ifs <;> simp

/-- A set firstReporter survives the fire-loop body, with the flag and the
reported-to station untouched. -/
theorem procFire_snd_keep (e : Env) (tNext : Time) (grounds : List GroundRow)
    (i : Nat) (fire : Fire) (d : DetectRecord) (r : ReportRecord)
    (h : r.firstReporter ≠ none) :
    (procFire e tNext grounds i fire d r).2.firstReport = r.firstReport ∧
    (procFire e tNext grounds i fire d r).2.firstReporter = r.firstReporter ∧
    (procFire e tNext grounds i fire d r).2.firstReportedTo = r.firstReportedTo := by
  rw [procFire_snd]
  split_ifs with h1 h2
  · exact ⟨rfl, rfl, rfl⟩
  · exact ⟨rfl, rfl, rfl⟩
  · exact ⟨rfl, rfl, rfl⟩

/-- If the flag is only set together with the reporter before the fire-loop
body, the same holds after. -/
theorem procFire_snd_wf (e : Env) (tNext : Time) (grounds : List GroundRow)
    (i : Nat) (fire : Fire) (d : DetectRecord) (r : ReportRecord)
    (h : r.firstReport = true → r.firstReporter ≠ none) :
    (procFire e tNext grounds i fire d r).2.firstReport = true →
      (procFire e tNext grounds i fire d r).2.firstReporter ≠ none := by
  rw [procFire_snd]
  split_ifs with h1 h2 h3
  · intro _; simp
  · exact h
  · exact h
  · exact h

/-- A set firstDetect flag survives the fire-loop body. -/
theorem procFire_fst_firstDetect_mono (e : Env) (tNext : Time) (grounds : List GroundRow)
    (i : Nat) (fire : Fire) (d : DetectRecord) (r : ReportRecord)
    (h : d.firstDetect = true) :
    (procFire e tNext grounds i fire d r).1.firstDetect = true := by
  rw [procFire_fst_firstDetect, h, Bool.true_or]

/-- Well-formedness of the detect record is preserved by the fire-loop
body, provided the satellite index is in range. -/
theorem procFire_detInv (e : Env) (tNext : Time) (grounds : List GroundRow)
    (i : Nat) (fire : Fire) (d : DetectRecord) (r : ReportRecord) (n : Nat)
    (hi : i < n) (hd : DetInvRec n d) :
    DetInvRec n (procFire e tNext grounds i fire d r).1 := by
  obtain ⟨hlen, hfd, hfdet⟩ := hd
  have hil : i < d.sat.length := by rw [hlen]; exact hi
  have hget : (d.sat.set i (some tNext))[i]? = some (some tNext) := by
    simp [List.getElem?_set, hil]
  rw [procFire_fst]
  cases hv : inViewAt e tNext fire i
  · exact ⟨hlen, hfd, hfdet⟩
  · by_cases hnone : d.firstDetector = none
    · rw [if_pos rfl, if_pos hnone]
      refine ⟨by simpa using hlen, by simp, ?_⟩
      constructor
      · intro _
        exact ⟨i, by simp [hget]⟩
      · intro _
        simp
    · rw [if_pos rfl, if_neg hnone]
      refine ⟨by simpa using hlen, by simpa using hfd, ?_⟩
      constructor
      · intro _
        exact ⟨i, by simp [hget]⟩
      · intro _
        simpa using hnone

/-- If the report flag is only set when the paired detect flag is set, the
same holds after one fire-loop body. -/
theorem procFire_pair (e : Env) (tNext : Time) (grounds : List GroundRow)
    (i : Nat) (fire : Fire) (d : DetectRecord) (r : ReportRecord) (n : Nat)
    (hi : i < n) (hd : DetInvRec n d)
    (hpair : r.firstReport = true → d.firstDetect = true) :
    (procFire e tNext grounds i fire d r).2.firstReport = true →
      (procFire e tNext grounds i fire d r).1.firstDetect = true := by
  intro hrep
  have hD1 : DetInvRec n (procFire e tNext grounds i fire d r).1 :=
    procFire_detInv e tNext grounds i fire d r n hi hd
  rw [procFire_snd] at hrep
  split_ifs at hrep with h1 h2 h3
  · obtain ⟨hent, _⟩ := h1
    have hdet : (procFire e tNext grounds i fire d r).1.firstDetector ≠ none :=
      hD1.2.2.mpr ⟨i, hent⟩
    exact hD1.2.1.mpr hdet
  · exact procFire_fst_firstDetect_mono e tNext grounds i fire d r (hpair hrep)
  · exact procFire_fst_firstDetect_mono e tNext grounds i fire d r (hpair hrep)
  · exact procFire_fst_firstDetect_mono e tNext grounds i fire d r (hpair hrep)

/-! ### The fire loop over the aligned record lists -/

/-- Lengths through the aligned pointwise map of the fire loop. -/
theorem zip3With_length
    (f : Fire → DetectRecord → ReportRecord → DetectRecord × ReportRecord) :
    ∀ (fs : List Fire) (ds : List DetectRecord) (rs : List ReportRecord),
      ds.length = fs.length → rs.length = fs.length →
      (zip3With f fs ds rs).1.length = fs.length ∧
      (zip3With f fs ds rs).2.length = fs.length
  | [], [], [], _, _ => by simp [zip3With]
  | fire :: fs, d :: ds, r :: rs, h1, h2 => by
    have ih := zip3With_length f fs ds rs (by simpa using h1) (by simpa using h2)
    simp [zip3With, ih.1, ih.2]
  | [], d :: ds, rs, h1, h2 => by simp at h1
  | [], [], r :: rs, h1, h2 => by simp at h2
  | fire :: fs, [], rs, h1, h2 => by simp at h1
  | fire :: fs, d :: ds, [], h1, h2 => by simp at h2

/-- The record pair at index j through the fire loop's pointwise map. -/
theorem zip3With_getElem?
    (f : Fire → DetectRecord → ReportRecord → DetectRecord × ReportRecord) :
    ∀ (fs : List Fire) (ds : List DetectRecord) (rs : List ReportRecord)
      (j : Nat) (fire : Fire) (d : DetectRecord) (r : ReportRecord),
      fs[j]? = some fire → ds[j]? = some d → rs[j]? = some r →
      (zip3With f fs ds rs).1[j]? = some (f fire d r).1 ∧
      (zip3With f fs ds rs).2[j]? = some (f fire d r).2
  | [], ds, rs, j, fire, d, r, hf, hd, hr => by simp at hf
  | fire0 :: fs, [], rs, j, fire, d, r, hf, hd, hr => by simp at hd
  | fire0 :: fs, d0 :: ds, [], j, fire, d, r, hf, hd, hr => by simp at hr
  | fire0 :: fs, d0 :: ds, r0 :: rs, 0, fire, d, r, hf, hd, hr => by
    simp only [List.getElem?_cons_zero, Option.some_inj] at hf hd hr
    subst hf; subst hd; subst hr
    simp [zip3With]
  | fire0 :: fs, d0 :: ds, r0 :: rs, j + 1, fire, d, r, hf, hd, hr => by
    simp only [List.getElem?_cons_succ] at hf hd hr
    have ih := zip3With_getElem? f fs ds rs j fire d r hf hd hr
    simpa [zip3With] using ih

/-- Every output detect record of the fire loop's pointwise map is the
image of some input detect record. -/
theorem zip3With_mem_fst
    (f : Fire → DetectRecord → ReportRecord → DetectRecord × ReportRecord) :
    ∀ (fs : List Fire) (ds : List DetectRecord) (rs : List ReportRecord)
      (d' : DetectRecord), d' ∈ (zip3With f fs ds rs).1 →
      ∃ fire d r, d ∈ ds ∧ d' = (f fire d r).1
  | [], ds, rs, d', h => by simp [zip3With] at h
  | fire0 :: fs, [], rs, d', h => by simp [zip3With] at h
  | fire0 :: fs, d0 :: ds, [], d', h => by simp [zip3With] at h
  | fire0 :: fs, d0 :: ds, r0 :: rs, d', h => by
    simp only [zip3With, List.mem_cons] at h
    rcases h with h | h
    · exact ⟨fire0, d0, r0, by simp, h⟩
    · obtain ⟨fire, d, r, hmem, heq⟩ := zip3With_mem_fst f fs ds rs d' h
      exact ⟨fire, d, r, by simp [hmem], heq⟩

/-- Every output report record of the fire loop's pointwise map is the
image of some input report record. -/
theorem zip3With_mem_snd
    (f : Fire → DetectRecord → ReportRecord → DetectRecord × ReportRecord) :
    ∀ (fs : List Fire) (ds : List DetectRecord) (rs : List ReportRecord)
      (r' : ReportRecord), r' ∈ (zip3With f fs ds rs).2 →
      ∃ fire d r, r ∈ rs ∧ r' = (f fire d r).2
  | [], ds, rs, r', h => by simp [zip3With] at h
  | fire0 :: fs, [], rs, r', h => by simp [zip3With] at h
  | fire0 :: fs, d0 :: ds, [], r', h => by simp [zip3With] at h
  | fire0 :: fs, d0 :: ds, r0 :: rs, r', h => by
    simp only [zip3With, List.mem_cons] at h
    rcases h with h | h
    · exact ⟨fire0, d0, r0, by simp, h⟩
    · obtain ⟨fire, d, r, hmem, heq⟩ := zip3With_mem_snd f fs ds rs r' h
      exact ⟨fire, d, r, by simp [hmem], heq⟩

/-- The satellite-major double loop acts on the record pair at index j as
the per-record satellite fold, and preserves the lengths. -/
theorem tickRecords_getElem? (e : Env) (tNext : Time) (grounds : List GroundRow)
    (fires : List Fire) :
    ∀ (is : List Nat) (p : List DetectRecord × List ReportRecord)
      (j : Nat) (fire : Fire) (d : DetectRecord) (r : ReportRecord),
      p.1.length = fires.length → p.2.length = fires.length →
      fires[j]? = some fire → p.1[j]? = some d → p.2[j]? = some r →
      (tickRecords e tNext grounds fires is p).1.length = fires.length ∧
      (tickRecords e tNext grounds fires is p).2.length = fires.length ∧
      (tickRecords e tNext grounds fires is p).1[j]? =
        some (foldSat e tNext grounds fire is (d, r)).1 ∧
      (tickRecords e tNext grounds fires is p).2[j]? =
        some (foldSat e tNext grounds fire is (d, r)).2
  | [], p, j, fire, d, r, h1, h2, hf, hd, hr => by
    exact ⟨h1, h2, by simpa [tickRecords, foldSat] using hd,
      by simpa [tickRecords, foldSat] using hr⟩
  | i :: is, p, j, fire, d, r, h1, h2, hf, hd, hr => by
    have hz := zip3With_getElem? (procFire e tNext grounds i) fires p.1 p.2
      j fire d r hf hd hr
    have hl := zip3With_length (procFire e tNext grounds i) fires p.1 p.2 h1 h2
    have ih := tickRecords_getElem? e tNext grounds fires is
      (zip3With (procFire e tNext grounds i) fires p.1 p.2) j fire
      (procFire e tNext grounds i fire d r).1
      (procFire e tNext grounds i fire d r).2
      hl.1 hl.2 hf hz.1 hz.2
    simpa [tickRecords, foldSat] using ih

/-- A pointwise property of detect records preserved by every fire-loop
body is preserved by the whole double loop. -/
theorem tickRecords_pres_fst (e : Env) (tNext : Time) (grounds : List GroundRow)
    (fires : List Fire) (P : DetectRecord → Prop)
    (hstep : ∀ i fire d r, P d → P (procFire e tNext grounds i fire d r).1) :
    ∀ (is : List Nat) (p : List DetectRecord × List ReportRecord),
      (∀ d ∈ p.1, P d) →
      ∀ d' ∈ (tickRecords e tNext grounds fires is p).1, P d'
  | [], p, hall, d', h => by
    exact hall d' (by simpa [tickRecords] using h)
  | i :: is, p, hall, d', h => by
    have hall' : ∀ d ∈ (zip3With (procFire e tNext grounds i) fires p.1 p.2).1, P d := by
      intro d hmem
      obtain ⟨fire, d0, r0, hd0, heq⟩ :=
        zip3With_mem_fst (procFire e tNext grounds i) fires p.1 p.2 d hmem
      rw [heq]
      exact hstep i fire d0 r0 (hall d0 hd0)
    exact tickRecords_pres_fst e tNext grounds fires P hstep is
      (zip3With (procFire e tNext grounds i) fires p.1 p.2) hall' d'
      (by simpa [tickRecords] using h)

/-- A pointwise property of report records preserved by every fire-loop
body is preserved by the whole double loop. -/
theorem tickRecords_pres_snd (e : Env) (tNext : Time) (grounds : List GroundRow)
    (fires : List Fire) (Q : ReportRecord → Prop)
    (hstep : ∀ i fire d r, Q r → Q (procFire e tNext grounds i fire d r).2) :
    ∀ (is : List Nat) (p : List DetectRecord × List ReportRecord),
      (∀ r ∈ p.2, Q r) →
      ∀ r' ∈ (tickRecords e tNext grounds fires is p).2, Q r'
  | [], p, hall, r', h => by
    exact hall r' (by simpa [tickRecords] using h)
  | i :: is, p, hall, r', h => by
    have hall' : ∀ r ∈ (zip3With (procFire e tNext grounds i) fires p.1 p.2).2, Q r := by
      intro r hmem
      obtain ⟨fire, d0, r0, hr0, heq⟩ :=
        zip3With_mem_snd (procFire e tNext grounds i) fires p.1 p.2 r hmem
      rw [heq]
      exact hstep i fire d0 r0 (hall r0 hr0)
    exact tickRecords_pres_snd e tNext grounds fires Q hstep is
      (zip3With (procFire e tNext grounds i) fires p.1 p.2) hall' r'
      (by simpa [tickRecords] using h)

/-! ### The satellite fold on one record pair -/

/-- Unfolding of the satellite fold on the empty index list. -/
theorem foldSat_nil (e : Env) (tNext : Time) (grounds : List GroundRow) (fire : Fire)
    (p : DetectRecord × ReportRecord) :
    foldSat e tNext grounds fire [] p = p := rfl

/-- Unfolding of the satellite fold on a cons. -/
theorem foldSat_cons (e : Env) (tNext : Time) (grounds : List GroundRow) (fire : Fire)
    (i : Nat) (is : List Nat) (p : DetectRecord × ReportRecord) :
    foldSat e tNext grounds fire (i :: is) p =
      foldSat e tNext grounds fire is (procFire e tNext grounds i fire p.1 p.2) := rfl

/-- The satellite fold does not change the detect record's fireId. -/
theorem foldSat_fst_fireId (e : Env) (tNext : Time) (grounds : List GroundRow)
    (fire : Fire) :
    ∀ (is : List Nat) (p : DetectRecord × ReportRecord),
      (foldSat e tNext grounds fire is p).1.fireId = p.1.fireId
  | [], p => rfl
  | i :: is, p => by
    rw [foldSat_cons, foldSat_fst_fireId e tNext grounds fire is, procFire_fst_fireId]

/-- The satellite fold does not change the report record's fireId. -/
theorem foldSat_snd_fireId (e : Env) (tNext : Time) (grounds : List GroundRow)
    (fire : Fire) :
    ∀ (is : List Nat) (p : DetectRecord × ReportRecord),
      (foldSat e tNext grounds fire is p).2.fireId = p.2.fireId
  | [], p => rfl
  | i :: is, p => by
    rw [foldSat_cons, foldSat_snd_fireId e tNext grounds fire is, procFire_snd_fireId]

/-- The satellite fold does not change the detect record's entry count. -/
theorem foldSat_fst_satLen (e : Env) (tNext : Time) (grounds : List GroundRow)
    (fire : Fire) :
    ∀ (is : List Nat) (p : DetectRecord × ReportRecord),
      (foldSat e tNext grounds fire is p).1.sat.length = p.1.sat.length
  | [], p => rfl
  | i :: is, p => by
    rw [foldSat_cons, foldSat_fst_satLen e tNext grounds fire is, procFire_fst_satLen]

/-- The satellite fold does not change the report record's entry count. -/
theorem foldSat_snd_satLen (e : Env) (tNext : Time) (grounds : List GroundRow)
    (fire : Fire) :
    ∀ (is : List Nat) (p : DetectRecord × ReportRecord),
      (foldSat e tNext grounds fire is p).2.sat.length = p.2.sat.length
  | [], p => rfl
  | i :: is, p => by
    rw [foldSat_cons, foldSat_snd_satLen e tNext grounds fire is, procFire_snd_satLen]

/-- firstDetector through the satellite fold: a set value is kept,
otherwise it latches to the first in-view satellite of the iteration order
(if any). -/
theorem foldSat_fst_firstDetector (e : Env) (tNext : Time) (grounds : List GroundRow)
    (fire : Fire) :
    ∀ (is : List Nat) (p : DetectRecord × ReportRecord),
      (foldSat e tNext grounds fire is p).1.firstDetector =
        p.1.firstDetector.or (is.find? (inViewAt e tNext fire))
  | [], p => by simp [foldSat_nil]
  | i :: is, p => by
    rw [foldSat_cons, foldSat_fst_firstDetector e tNext grounds fire is,
      procFire_fst_firstDetector, List.find?_cons]
    cases hv : inViewAt e tNext fire i <;> cases hfd : p.1.firstDetector <;> simp

/-- firstDetect through the satellite fold: it stays set, and becomes set
iff firstDetector was unset and some satellite of the iteration is in
view. -/
theorem foldSat_fst_firstDetect (e : Env) (tNext : Time) (grounds : List GroundRow)
    (fire : Fire) :
    ∀ (is : List Nat) (p : DetectRecord × ReportRecord),
      (foldSat e tNext grounds fire is p).1.firstDetect =
        (p.1.firstDetect ||
          (p.1.firstDetector.isNone && is.any (inViewAt e tNext fire)))
  | [], p => by simp [foldSat_nil]
  | i :: is, p => by
    rw [foldSat_cons, foldSat_fst_firstDetect e tNext grounds fire is,
      procFire_fst_firstDetect, procFire_fst_firstDetector, List.any_cons]
    cases hv : inViewAt e tNext fire i <;> cases hfd : p.1.firstDetector <;>
      cases hfl : p.1.firstDetect <;> simp

/-- The per-satellite detection entry through the satellite fold: the entry
of satellite i is overwritten with the next scenario time exactly when i is
part of the iteration and the fire is in view of i. -/
theorem foldSat_fst_entry (e : Env) (tNext : Time) (grounds : List GroundRow)
    (fire : Fire) (i : Nat) :
    ∀ (is : List Nat) (p : DetectRecord × ReportRecord), i < p.1.sat.length →
      (foldSat e tNext grounds fire is p).1.sat.getD i none =
        if i ∈ is ∧ inViewAt e tNext fire i = true then some tNext
        else p.1.sat.getD i none
  | [], p, hi => by simp [foldSat_nil]
  | i' :: is, p, hi => by
    have hlen : i < (procFire e tNext grounds i' fire p.1 p.2).1.sat.length := by
      rw [procFire_fst_satLen]; exact hi
    rw [foldSat_cons, foldSat_fst_entry e tNext grounds fire i is _ hlen]
    by_cases heq : i' = i
    · subst heq
      rw [procFire_fst_sat_getD_eq e tNext grounds i' fire p.1 p.2 hi]
      cases hv : inViewAt e tNext fire i' <;> by_cases hin : i' ∈ is <;> simp [hv, hin]
    · rw [procFire_fst_sat_getD_ne e tNext grounds i' fire p.1 p.2 i (Ne.symm heq)]
      have hmem : (i ∈ i' :: is) ↔ (i ∈ is) := by
        simp [List.mem_cons, Ne.symm heq]
      simp only [hmem]

/-- A set firstReporter survives the satellite fold, with the flag and the
reported-to station of the record untouched. -/
theorem foldSat_snd_keep (e : Env) (tNext : Time) (grounds : List GroundRow)
    (fire : Fire) :
    ∀ (is : List Nat) (p : DetectRecord × ReportRecord), p.2.firstReporter ≠ none →
      (foldSat e tNext grounds fire is p).2.firstReport = p.2.firstReport ∧
      (foldSat e tNext grounds fire is p).2.firstReporter = p.2.firstReporter ∧
      (foldSat e tNext grounds fire is p).2.firstReportedTo = p.2.firstReportedTo
  | [], p, h => ⟨rfl, rfl, rfl⟩
  | i :: is, p, h => by
    have hk := procFire_snd_keep e tNext grounds i fire p.1 p.2 h
    have h' : (procFire e tNext grounds i fire p.1 p.2).2.firstReporter ≠ none := by
      rw [hk.2.1]; exact h
    have ih := foldSat_snd_keep e tNext grounds fire is
      (procFire e tNext grounds i fire p.1 p.2) h'
    rw [foldSat_cons]
    exact ⟨ih.1.trans hk.1, ih.2.1.trans hk.2.1, ih.2.2.trans hk.2.2⟩

/-- Record well-formedness and the report-implies-detect pairing are
preserved by the satellite fold over in-range satellite indices. -/
theorem foldSat_invs (e : Env) (tNext : Time) (grounds : List GroundRow)
    (fire : Fire) (n : Nat) :
    ∀ (is : List Nat) (p : DetectRecord × ReportRecord),
      (∀ i ∈ is, i < n) → DetInvRec n p.1 →
      (p.2.firstReport = true → p.2.firstReporter ≠ none) →
      (p.2.firstReport = true → p.1.firstDetect = true) →
      DetInvRec n (foldSat e tNext grounds fire is p).1 ∧
      ((foldSat e tNext grounds fire is p).2.firstReport = true →
        (foldSat e tNext grounds fire is p).2.firstReporter ≠ none) ∧
      ((foldSat e tNext grounds fire is p).2.firstReport = true →
        (foldSat e tNext grounds fire is p).1.firstDetect = true)
  | [], p, _, hd, hwf, hpair => ⟨hd, hwf, hpair⟩
  | i :: is, p, his, hd, hwf, hpair => by
    have hi : i < n := his i (by simp)
    have hd' := procFire_detInv e tNext grounds i fire p.1 p.2 n hi hd
    have hwf' := procFire_snd_wf e tNext grounds i fire p.1 p.2 hwf
    have hpair' := procFire_pair e tNext grounds i fire p.1 p.2 n hi hd hpair
    rw [foldSat_cons]
    exact foldSat_invs e tNext grounds fire n is
      (procFire e tNext grounds i fire p.1 p.2)
      (fun i' hi' => his i' (by simp [hi'])) hd' hwf' hpair'

/-! ### State-level lemmas -/

/-- Unfolding of one tick. -/
theorem tick_def (e : Env) (dt : Time) (s : Constellation) :
    s.tick e dt = { s with
      next_time := s.time + dt
      next_positions :=
        (List.range s.numSats).map (fun i => some (e.propagate i (s.time + dt)))
      min_elevations_fire :=
        (List.range s.numSats).map (fun i => e.minElevFire i (s.time + dt))
      detect := (tickRecords e (s.time + dt) s.grounds s.fires
        (List.range s.numSats) (s.detect, s.report)).1
      report := (tickRecords e (s.time + dt) s.grounds s.fires
        (List.range s.numSats) (s.detect, s.report)).2 } := rfl

/-- The double loop preserves the record-list lengths. -/
theorem tickRecords_length (e : Env) (tNext : Time) (grounds : List GroundRow)
    (fires : List Fire) :
    ∀ (is : List Nat) (p : List DetectRecord × List ReportRecord),
      p.1.length = fires.length → p.2.length = fires.length →
      (tickRecords e tNext grounds fires is p).1.length = fires.length ∧
      (tickRecords e tNext grounds fires is p).2.length = fires.length
  | [], p, h1, h2 => ⟨h1, h2⟩
  | i :: is, p, h1, h2 => by
    have hl := zip3With_length (procFire e tNext grounds i) fires p.1 p.2 h1 h2
    have ih := tickRecords_length e tNext grounds fires is
      (zip3With (procFire e tNext grounds i) fires p.1 p.2) hl.1 hl.2
    simpa [tickRecords] using ih

/-- Unfolding of a run on the empty operation list. -/
theorem run_nil (e : Env) (s : Constellation) : run e s [] = (s, []) := rfl

/-- Unfolding of a run on a cons. -/
theorem run_cons (e : Env) (s : Constellation) (op : Op) (ops : List Op) :
    run e s (op :: ops) =
      ((run e (step e s op).1 ops).1,
        (step e s op).2 ++ (run e (step e s op).1 ops).2) := rfl

/-- A run on an appended operation list is the run of the pieces, with the
notifications concatenated. -/
theorem run_append (e : Env) :
    ∀ (ops ops' : List Op) (s : Constellation),
      run e s (ops ++ ops') =
        ((run e (run e s ops).1 ops').1,
          (run e s ops).2 ++ (run e (run e s ops).1 ops').2)
  | [], ops', s => by simp [run_nil]
  | op :: ops, ops', s => by
    rw [List.cons_append, run_cons, run_cons,
      run_append e ops ops' (step e s op).1]
    simp [run_cons, List.append_assoc]

/-- An inbound fire-started event preserves the state invariant. -/
theorem Inv_on_fire (s : Constellation) (f : FireStarted) (h : Inv s) :
    Inv (s.on_fire f) := by
  obtain ⟨hlen1, hlen2, hdet, hrep, hpair⟩ := h
  have hrepl : ∀ i : Nat,
      (List.replicate s.numSats (none : Option Time)).getD i none = none := by
    intro i
    simp [List.getD_eq_getElem?_getD, List.getElem?_replicate]
    split <;> rfl
  refine ⟨by simp [Constellation.on_fire, hlen1],
          by simp [Constellation.on_fire, hlen2], ?_, ?_, ?_⟩
  · intro j d hj
    simp only [Constellation.on_fire] at hj ⊢
    rcases Nat.lt_trichotomy j s.detect.length with hlt | heq | hgt
    · rw [List.getElem?_append_left hlt] at hj
      rw [List.getElem?_append_left (by rw [← hlen1]; exact hlt)]
      exact hdet j d hj
    · subst heq
      rw [List.getElem?_concat_length] at hj
      rw [hlen1, List.getElem?_concat_length]
      cases hj
      refine ⟨rfl, by simp [DetInvRec], ?_, ?_⟩
      · simp
      · constructor
        · intro hx; exact absurd rfl hx
        · rintro ⟨i, hi⟩
          exact absurd (hrepl i) hi
    · rw [List.getElem?_append_right (by omega)] at hj
      have : j - s.detect.length ≠ 0 := by omega
      rcases Nat.exists_eq_succ_of_ne_zero this with ⟨k, hk⟩
      rw [hk] at hj
      simp at hj
  · intro j r hj
    simp only [Constellation.on_fire] at hj ⊢
    rcases Nat.lt_trichotomy j s.report.length with hlt | heq | hgt
    · rw [List.getElem?_append_left hlt] at hj
      rw [List.getElem?_append_left (by rw [← hlen2]; exact hlt)]
      exact hrep j r hj
    · subst heq
      rw [List.getElem?_concat_length] at hj
      rw [hlen2, List.getElem?_concat_length]
      cases hj
      exact ⟨rfl, by simp [RepInvRec], by intro hx; cases hx⟩
    · rw [List.getElem?_append_right (by omega)] at hj
      have : j - s.report.length ≠ 0 := by omega
      rcases Nat.exists_eq_succ_of_ne_zero this with ⟨k, hk⟩
      rw [hk] at hj
      simp at hj
  · intro j d r hjd hjr hflag
    simp only [Constellation.on_fire] at hjd hjr
    rcases Nat.lt_trichotomy j s.report.length with hlt | heq | hgt
    · rw [List.getElem?_append_left hlt] at hjr
      rw [List.getElem?_append_left (by rw [hlen1, ← hlen2]; exact hlt)] at hjd
      exact hpair j d r hjd hjr hflag
    · subst heq
      rw [List.getElem?_concat_length] at hjr
      cases hjr
      cases hflag
    · rw [List.getElem?_append_right (by omega)] at hjr
      have : j - s.report.length ≠ 0 := by omega
      rcases Nat.exists_eq_succ_of_ne_zero this with ⟨k, hk⟩
      rw [hk] at hjr
      simp at hjr

/-- An inbound ground-location event preserves the state invariant. -/
theorem Inv_on_ground (s : Constellation) (g : GroundLocation) (h : Inv s) :
    Inv (s.on_ground g) := by
  rw [Constellation.on_ground]
  split <;> exact h

/-- A re-initialization preserves the state invariant. -/
theorem Inv_reinit (e : Env) (t : Time) (s : Constellation) (h : Inv s) :
    Inv (s.reinit e t) := h

/-- A tock preserves the state invariant. -/
theorem Inv_tock (s : Constellation) (h : Inv s) : Inv (s.tock).1 := by
  obtain ⟨hlen1, hlen2, hdet, hrep, hpair⟩ := h
  refine ⟨hlen1, ?_, hdet, ?_, ?_⟩
  · show (s.report.map (fun r : ReportRecord =>
      ({ r with firstReport := false } : ReportRecord))).length = s.fires.length
    simpa using hlen2
  · intro j r hj
    have hj' : (s.report.map (fun r => { r with firstReport := false }))[j]? =
        some r := hj
    rw [List.getElem?_map] at hj'
    cases hr0 : s.report[j]? with
    | none => rw [hr0] at hj'; cases hj'
    | some r0 =>
      rw [hr0] at hj'
      simp only [Option.map_some'] at hj'
      cases hj'
      obtain ⟨hfid, hlen, _⟩ := hrep j r0 hr0
      exact ⟨hfid, by simpa [RepInvRec] using hlen, by intro hx; cases hx⟩
  · intro j d r hjd hjr hflag
    have hjr' : (s.report.map (fun r => { r with firstReport := false }))[j]? =
        some r := hjr
    rw [List.getElem?_map] at hjr'
    cases hr0 : s.report[j]? with
    | none => rw [hr0] at hjr'; cases hjr'
    | some r0 =>
      rw [hr0] at hjr'
      simp only [Option.map_some'] at hjr'
      cases hjr'
      cases hflag

/-- A tick preserves the state invariant. -/
theorem Inv_tick (e : Env) (dt : Time) (s : Constellation) (h : Inv s) :
    Inv (s.tick e dt) := by
  obtain ⟨hlen1, hlen2, hdet, hrep, hpair⟩ := h
  have hlens := tickRecords_length e (s.time + dt) s.grounds s.fires
    (List.range s.numSats) (s.detect, s.report) hlen1 hlen2
  have hrange : ∀ i ∈ List.range s.numSats, i < s.numSats := by
    intro i hi; exact List.mem_range.mp hi
  have main : ∀ j : Nat, j < s.fires.length →
      ∃ fire d r, s.fires[j]? = some fire ∧ s.detect[j]? = some d ∧
        s.report[j]? = some r ∧
        (tickRecords e (s.time + dt) s.grounds s.fires (List.range s.numSats)
          (s.detect, s.report)).1[j]? =
          some (foldSat e (s.time + dt) s.grounds fire
            (List.range s.numSats) (d, r)).1 ∧
        (tickRecords e (s.time + dt) s.grounds s.fires (List.range s.numSats)
          (s.detect, s.report)).2[j]? =
          some (foldSat e (s.time + dt) s.grounds fire
            (List.range s.numSats) (d, r)).2 := by
    intro j hj
    have hf : s.fires[j]? = some (s.fires.get ⟨j, hj⟩) := List.getElem?_eq_getElem hj
    have hd0 : s.detect[j]? = some (s.detect.get ⟨j, by omega⟩) :=
      List.getElem?_eq_getElem (by omega)
    have hr0 : s.report[j]? = some (s.report.get ⟨j, by omega⟩) :=
      List.getElem?_eq_getElem (by omega)
    have hres := tickRecords_getElem? e (s.time + dt) s.grounds s.fires
      (List.range s.numSats) (s.detect, s.report) j _ _ _ hlen1 hlen2 hf hd0 hr0
    exact ⟨_, _, _, hf, hd0, hr0, hres.2.2.1, hres.2.2.2⟩
  rw [tick_def]
  refine ⟨hlens.1, hlens.2, ?_, ?_, ?_⟩
  · intro j d' hj
    have hj2 : (tickRecords e (s.time + dt) s.grounds s.fires
        (List.range s.numSats) (s.detect, s.report)).1[j]? = some d' := hj
    have hjlt : j < s.fires.length := by
      by_contra hc
      push_neg at hc
      rw [List.getElem?_eq_none (by omega)] at hj2
      cases hj2
    obtain ⟨fire, d, r, hf, hd0, hr0, hres1, hres2⟩ := main j hjlt
    rw [hres1] at hj2
    cases hj2
    obtain ⟨hfid_d, hDinv⟩ := hdet j d hd0
    obtain ⟨hfid_r, hRinv⟩ := hrep j r hr0
    have hp := hpair j d r hd0 hr0
    have hinvs := foldSat_invs e (s.time + dt) s.grounds fire s.numSats
      (List.range s.numSats) (d, r) hrange hDinv hRinv.2 hp
    constructor
    · rw [foldSat_fst_fireId]
      exact hfid_d
    · exact hinvs.1
  · intro j r' hj
    have hj2 : (tickRecords e (s.time + dt) s.grounds s.fires
        (List.range s.numSats) (s.detect, s.report)).2[j]? = some r' := hj
    have hjlt : j < s.fires.length := by
      by_contra hc
      push_neg at hc
      rw [List.getElem?_eq_none (by omega)] at hj2
      cases hj2
    obtain ⟨fire, d, r, hf, hd0, hr0, hres1, hres2⟩ := main j hjlt
    rw [hres2] at hj2
    cases hj2
    obtain ⟨hfid_d, hDinv⟩ := hdet j d hd0
    obtain ⟨hfid_r, hRinv⟩ := hrep j r hr0
    have hp := hpair j d r hd0 hr0
    have hinvs := foldSat_invs e (s.time + dt) s.grounds fire s.numSats
      (List.range s.numSats) (d, r) hrange hDinv hRinv.2 hp
    constructor
    · rw [foldSat_snd_fireId]
      exact hfid_r
    · constructor
      · rw [foldSat_snd_satLen]
        exact hRinv.1
      · exact hinvs.2.1
  · intro j d' r' hjd hjr hflag
    have hjd2 : (tickRecords e (s.time + dt) s.grounds s.fires
        (List.range s.numSats) (s.detect, s.report)).1[j]? = some d' := hjd
    have hjr2 : (tickRecords e (s.time + dt) s.grounds s.fires
        (List.range s.numSats) (s.detect, s.report)).2[j]? = some r' := hjr
    have hjlt : j < s.fires.length := by
      by_contra hc
      push_neg at hc
      rw [List.getElem?_eq_none (by omega)] at hjd2
      cases hjd2
    obtain ⟨fire, d, r, hf, hd0, hr0, hres1, hres2⟩ := main j hjlt
    rw [hres1] at hjd2
    rw [hres2] at hjr2
    cases hjd2
    cases hjr2
    obtain ⟨hfid_d, hDinv⟩ := hdet j d hd0
    obtain ⟨hfid_r, hRinv⟩ := hrep j r hr0
    have hp := hpair j d r hd0 hr0
    have hinvs := foldSat_invs e (s.time + dt) s.grounds fire s.numSats
      (List.range s.numSats) (d, r) hrange hDinv hRinv.2 hp
    exact hinvs.2.2 hflag

/-- Every operation preserves the state invariant. -/
theorem Inv_step (e : Env) (s : Constellation) (op : Op) (h : Inv s) :
    Inv (step e s op).1 := by
  cases op with
  | fire f => exact Inv_on_fire s f h
  | ground g => exact Inv_on_ground s g h
  | tick dt => exact Inv_tick e dt s h
  | tock => exact Inv_tock s h
  | init t => exact Inv_reinit e t s h

/-- The state after construction and initialization satisfies the
invariant. -/
theorem Inv_initState (n : Nat) (e : Env) (t0 : Time) : Inv (initState n e t0) := by
  refine ⟨rfl, rfl, ?_, ?_, ?_⟩
  · intro j d hj
    simp [initState] at hj
  · intro j r hj
    simp [initState] at hj
  · intro j d r hjd hjr hflag
    simp [initState] at hjd

/-- Every run from an invariant state ends in an invariant state. -/
theorem Inv_run (e : Env) :
    ∀ (ops : List Op) (s : Constellation), Inv s → Inv (run e s ops).1
  | [], s, h => h
  | op :: ops, s, h => by
    rw [run_cons]
    exact Inv_run e ops (step e s op).1 (Inv_step e s op h)

/-- One operation keeps every detect record in place (at its index, with
its fireId), never clears its firstDetect flag, and never changes a set
firstDetector. -/
theorem step_detect_mono (e : Env) (s : Constellation) (op : Op) (j : Nat)
    (d : DetectRecord) (h : Inv s) (hj : s.detect[j]? = some d) :
    ∃ d', (step e s op).1.detect[j]? = some d' ∧
      d'.fireId = d.fireId ∧
      (d.firstDetect = true → d'.firstDetect = true) ∧
      (∀ x, d.firstDetector = some x → d'.firstDetector = some x) := by
  obtain ⟨hlen1, hlen2, hdet, hrep, hpair⟩ := h
  have hjlt : j < s.detect.length := by
    by_contra hc
    push_neg at hc
    rw [List.getElem?_eq_none hc] at hj
    cases hj
  cases op with
  | fire f =>
    refine ⟨d, ?_, rfl, fun hh => hh, fun x hx => hx⟩
    show (s.detect ++ [_])[j]? = some d
    rw [List.getElem?_append_left hjlt]
    exact hj
  | ground g =>
    refine ⟨d, ?_, rfl, fun hh => hh, fun x hx => hx⟩
    show (s.on_ground g).detect[j]? = some d
    rw [Constellation.on_ground]
    split <;> exact hj
  | init t => exact ⟨d, hj, rfl, fun hh => hh, fun x hx => hx⟩
  | tock => exact ⟨d, hj, rfl, fun hh => hh, fun x hx => hx⟩
  | tick dt =>
    have hjf : j < s.fires.length := by omega
    have hf : s.fires[j]? = some (s.fires.get ⟨j, hjf⟩) := List.getElem?_eq_getElem hjf
    have hr0 : s.report[j]? = some (s.report.get ⟨j, by omega⟩) :=
      List.getElem?_eq_getElem (by omega)
    have hres := tickRecords_getElem? e (s.time + dt) s.grounds s.fires
      (List.range s.numSats) (s.detect, s.report) j _ _ _ hlen1 hlen2 hf hj hr0
    refine ⟨_, hres.2.2.1, foldSat_fst_fireId _ _ _ _ _ _, ?_, ?_⟩
    · intro hh
      rw [foldSat_fst_firstDetect, hh, Bool.true_or]
    · intro x hx
      rw [foldSat_fst_firstDetector, hx]
      rfl

/-- A run keeps every detect record in place, never clears its firstDetect
flag, and never changes a set firstDetector. -/
theorem run_detect_mono (e : Env) :
    ∀ (ops : List Op) (s : Constellation) (j : Nat) (d : DetectRecord),
      Inv s → s.detect[j]? = some d →
      ∃ d', (run e s ops).1.detect[j]? = some d' ∧
        d'.fireId = d.fireId ∧
        (d.firstDetect = true → d'.firstDetect = true) ∧
        (∀ x, d.firstDetector = some x → d'.firstDetector = some x)
  | [], s, j, d, h, hj => ⟨d, hj, rfl, fun hh => hh, fun x hx => hx⟩
  | op :: ops, s, j, d, h, hj => by
    obtain ⟨d1, hj1, hfid1, hfl1, hfdet1⟩ := step_detect_mono e s op j d h hj
    obtain ⟨d2, hj2, hfid2, hfl2, hfdet2⟩ :=
      run_detect_mono e ops (step e s op).1 j d1 (Inv_step e s op h) hj1
    rw [run_cons]
    exact ⟨d2, hj2, hfid2.trans hfid1, fun hh => hfl2 (hfl1 hh),
      fun x hx => hfdet2 x (hfdet1 x hx)⟩

/-- No operation changes the number of satellites. -/
theorem step_numSats (e : Env) (s : Constellation) (op : Op) :
    (step e s op).1.numSats = s.numSats := by
  cases op with
  | ground g =>
    show (s.on_ground g).numSats = s.numSats
    rw [Constellation.on_ground]
    split <;> rfl
  | fire f => rfl
  | tick dt => rfl
  | tock => rfl
  | init t => rfl

/-- No run changes the number of satellites. -/
theorem run_numSats (e : Env) :
    ∀ (ops : List Op) (s : Constellation), (run e s ops).1.numSats = s.numSats
  | [], s => rfl
  | op :: ops, s => by
    rw [run_cons]
    rw [run_numSats e ops (step e s op).1, step_numSats]

/-- C9 (amended): at every point of a run, the ordered collections of
tracked fires, detection records, and report records — not satellites —
have the same length and are index-aligned: the record at each index
carries the fireId of the fire at that index.  Every operation preserves
this. -/
theorem c9_amended (n : Nat) (e : Env) (t0 : Time) (ops : List Op) :
    (run e (initState n e t0) ops).1.detect.length =
      (run e (initState n e t0) ops).1.fires.length ∧
    (run e (initState n e t0) ops).1.report.length =
      (run e (initState n e t0) ops).1.fires.length ∧
    (∀ (j : Nat) (d : DetectRecord),
      (run e (initState n e t0) ops).1.detect[j]? = some d →
      (run e (initState n e t0) ops).1.fires[j]?.map Fire.fireId = some d.fireId) ∧
    (∀ (j : Nat) (r : ReportRecord),
      (run e (initState n e t0) ops).1.report[j]? = some r →
      (run e (initState n e t0) ops).1.fires[j]?.map Fire.fireId = some r.fireId) := by
  have h := Inv_run e ops (initState n e t0) (Inv_initState n e t0)
  exact ⟨h.1, h.2.1, fun j d hj => (h.2.2.1 j d hj).1,
    fun j r hj => (h.2.2.2.1 j r hj).1⟩

/-- C9 witness: the alignment theorem evaluated after one fire-started
event in a one-satellite run. -/
theorem c9_witness :
    (run envAlways (initState 1 envAlways 0) [Op.fire fsA]).1.fires[0]?.map
        Fire.fireId =
      some dFresh.fireId :=
  (c9_amended 1 envAlways 0 [Op.fire fsA]).2.2.1 0 dFresh (by decide)

/-- C5: the DetectionRecord invariant.  At every point of a run,
firstDetector is non-null iff some per-satellite detection timestamp is
non-null; a set firstDetector is never reassigned for the remainder of the
run; and on the tick at which it is assigned (firstDetector still null
before), it becomes the first satellite in iteration order that is in view
of the fire at the next scenario time. -/
theorem c5_invariant (n : Nat) (e : Env) (t0 : Time) (ops ops' : List Op)
    (dt : Time) (j : Nat) :
    (∀ d : DetectRecord, (run e (initState n e t0) ops).1.detect[j]? = some d →
      (d.firstDetector ≠ none ↔ ∃ i, d.sat.getD i none ≠ none)) ∧
    (∀ x : Nat, ((run e (initState n e t0) ops).1.detect[j]?.bind
        DetectRecord.firstDetector) = some x →
      ((run e (initState n e t0) (ops ++ ops')).1.detect[j]?.bind
        DetectRecord.firstDetector) = some x) ∧
    (∀ (d : DetectRecord) (fire : Fire),
      (run e (initState n e t0) ops).1.detect[j]? = some d →
      d.firstDetector = none →
      (run e (initState n e t0) ops).1.fires[j]? = some fire →
      (((run e (initState n e t0) ops).1.tick e dt).detect[j]?.bind
        DetectRecord.firstDetector) =
        (List.range n).find?
          (inViewAt e ((run e (initState n e t0) ops).1.time + dt) fire)) := by
  have hInv := Inv_run e ops (initState n e t0) (Inv_initState n e t0)
  have hns : (run e (initState n e t0) ops).1.numSats = n :=
    run_numSats e ops (initState n e t0)
  refine ⟨?_, ?_, ?_⟩
  · intro d hj
    exact ((hInv.2.2.1 j d hj).2).2.2
  · intro x hx
    cases hget : (run e (initState n e t0) ops).1.detect[j]? with
    | none => rw [hget] at hx; cases hx
    | some d =>
      rw [hget] at hx
      simp only [Option.some_bind] at hx
      obtain ⟨d', hj', _, _, hfdet'⟩ :=
        run_detect_mono e ops' (run e (initState n e t0) ops).1 j d hInv hget
      rw [run_append]
      show ((run e (run e (initState n e t0) ops).1 ops').1.detect[j]?.bind
        DetectRecord.firstDetector) = some x
      rw [hj']
      simpa using hfdet' x hx
  · intro d fire hj hdnone hfire
    obtain ⟨hlen1, hlen2, hdet, hrep, hpair⟩ := hInv
    have hjlt : j < (run e (initState n e t0) ops).1.detect.length := by
      by_contra hc
      push_neg at hc
      rw [List.getElem?_eq_none hc] at hj
      cases hj
    have hr0 : (run e (initState n e t0) ops).1.report[j]? =
        some ((run e (initState n e t0) ops).1.report.get ⟨j, by omega⟩) :=
      List.getElem?_eq_getElem (by omega)
    have hres := tickRecords_getElem? e
      ((run e (initState n e t0) ops).1.time + dt)
      (run e (initState n e t0) ops).1.grounds
      (run e (initState n e t0) ops).1.fires
      (List.range (run e (initState n e t0) ops).1.numSats)
      ((run e (initState n e t0) ops).1.detect,
        (run e (initState n e t0) ops).1.report)
      j _ _ _ hlen1 hlen2 hfire hj hr0
    have hj2 : ((run e (initState n e t0) ops).1.tick e dt).detect[j]? =
        some (foldSat e ((run e (initState n e t0) ops).1.time + dt)
          (run e (initState n e t0) ops).1.grounds fire
          (List.range (run e (initState n e t0) ops).1.numSats)
          (d, (run e (initState n e t0) ops).1.report.get ⟨j, by omega⟩)).1 :=
      hres.2.2.1
    rw [hj2]
    simp only [Option.some_bind]
    rw [foldSat_fst_firstDetector, hdnone, hns]
    rfl

/-- C5 witness: the invariant and stability conjuncts evaluated on a
concrete run — after one fire and one in-view tick, firstDetector is
satellite 0 and stays satellite 0 after a further tock. -/
theorem c5_witness :
    (dSeen.firstDetector ≠ none ↔ ∃ i, dSeen.sat.getD i none ≠ none) ∧
    ((run envAlways (initState 1 envAlways 0)
        ([Op.fire fsA, Op.tick 1] ++ [Op.tock])).1.detect[0]?.bind
      DetectRecord.firstDetector) = some 0 :=
  ⟨(c5_invariant 1 envAlways 0 [Op.fire fsA, Op.tick 1] [] 1 0).1 dSeen (by decide),
   (c5_invariant 1 envAlways 0 [Op.fire fsA, Op.tick 1] [Op.tock] 1 0).2.1 0
     (by decide)⟩

/-- C2 (amended): on every tick, for a tracked fire and a satellite index,
the satellite's detection entry is overwritten with the next scenario time
whenever the fire is in view at that time (the null guard is commented out
in the source), and left unchanged otherwise; so the entry holds the time
of the last in-view tick, not the first. -/
theorem c2_amended (n : Nat) (e : Env) (t0 : Time) (ops : List Op) (dt : Time)
    (j i : Nat) (d : DetectRecord) (fire : Fire)
    (hd : (run e (initState n e t0) ops).1.detect[j]? = some d)
    (hf : (run e (initState n e t0) ops).1.fires[j]? = some fire)
    (hi : i < n) :
    ∃ d', ((run e (initState n e t0) ops).1.tick e dt).detect[j]? = some d' ∧
      d'.sat.getD i none =
        (if inViewAt e ((run e (initState n e t0) ops).1.time + dt) fire i
         then some ((run e (initState n e t0) ops).1.time + dt)
         else d.sat.getD i none) := by
  have hInv := Inv_run e ops (initState n e t0) (Inv_initState n e t0)
  have hns : (run e (initState n e t0) ops).1.numSats = n :=
    run_numSats e ops (initState n e t0)
  obtain ⟨hlen1, hlen2, hdet, hrep, hpair⟩ := hInv
  have hjlt : j < (run e (initState n e t0) ops).1.detect.length := by
    by_contra hc
    push_neg at hc
    rw [List.getElem?_eq_none hc] at hd
    cases hd
  have hr0 : (run e (initState n e t0) ops).1.report[j]? =
      some ((run e (initState n e t0) ops).1.report.get ⟨j, by omega⟩) :=
    List.getElem?_eq_getElem (by omega)
  have hres := tickRecords_getElem? e
    ((run e (initState n e t0) ops).1.time + dt)
    (run e (initState n e t0) ops).1.grounds
    (run e (initState n e t0) ops).1.fires
    (List.range (run e (initState n e t0) ops).1.numSats)
    ((run e (initState n e t0) ops).1.detect,
      (run e (initState n e t0) ops).1.report)
    j _ _ _ hlen1 hlen2 hf hd hr0
  refine ⟨_, hres.2.2.1, ?_⟩
  have hsatlen : d.sat.length = n := by
    have := ((hdet j d hd).2).1
    rw [this, hns]
  have hent := foldSat_fst_entry e
    ((run e (initState n e t0) ops).1.time + dt)
    (run e (initState n e t0) ops).1.grounds fire i
    (List.range (run e (initState n e t0) ops).1.numSats)
    (d, (run e (initState n e t0) ops).1.report.get ⟨j, by omega⟩)
    (by show i < d.sat.length; omega)
  rw [hent]
  have hmem : i ∈ List.range (run e (initState n e t0) ops).1.numSats := by
    rw [hns]
    exact List.mem_range.mpr hi
  by_cases hv : inViewAt e ((run e (initState n e t0) ops).1.time + dt) fire i = true
  · rw [if_pos ⟨hmem, hv⟩, if_pos hv]
  · rw [if_neg (by intro hc; exact hv hc.2)]
    rw [if_neg (by simpa using hv)]

/-- C2 witness: the amended tick characterization evaluated on the in-view
branch of a concrete one-satellite run. -/
theorem c2_witness :
    ∃ d', ((run envAlways (initState 1 envAlways 0) [Op.fire fsA]).1.tick
        envAlways 1).detect[0]? = some d' ∧
      d'.sat.getD 0 none =
        (if inViewAt envAlways
            ((run envAlways (initState 1 envAlways 0) [Op.fire fsA]).1.time + 1)
            fireA 0
         then some ((run envAlways (initState 1 envAlways 0)
            [Op.fire fsA]).1.time + 1)
         else dFresh.sat.getD 0 none) :=
  c2_amended 1 envAlways 0 [Op.fire fsA] 1 0 0 dFresh fireA
    (by decide) (by decide) (by decide)

/-- C10: tock changes only the committed positions, the scenario clock, and
the firstReport flags — which it clears unconditionally on every report
record, also those that emitted nothing — leaving the fires, the ground
registry, the whole detect list (timestamps, firstDetect, firstDetector)
and the rest of every report record (timestamps, firstReporter,
firstReportedTo) unchanged; and no operation of a run ever clears a set
firstDetect flag. -/
theorem c10_tock_frame (e : Env) (n : Nat) (t0 : Time) (ops : List Op) (op : Op)
    (j : Nat) (d : DetectRecord) (s' : Constellation) :
    ((s'.tock).1.positions = s'.next_positions ∧
     (s'.tock).1.time = s'.next_time ∧
     (s'.tock).1.fires = s'.fires ∧
     (s'.tock).1.grounds = s'.grounds ∧
     (s'.tock).1.detect = s'.detect ∧
     (s'.tock).1.next_positions = s'.next_positions ∧
     (s'.tock).1.min_elevations_fire = s'.min_elevations_fire ∧
     (s'.tock).1.numSats = s'.numSats ∧
     (s'.tock).1.report = s'.report.map (fun r : ReportRecord =>
        ({ r with firstReport := false } : ReportRecord))) ∧
    ((run e (initState n e t0) ops).1.detect[j]? = some d →
      d.firstDetect = true →
      ∃ d', (step e (run e (initState n e t0) ops).1 op).1.detect[j]? = some d' ∧
        d'.firstDetect = true) := by
  constructor
  · exact ⟨rfl, rfl, rfl, rfl, rfl, rfl, rfl, rfl, rfl⟩
  · intro hj hfl
    obtain ⟨d', hj', _, hmono, _⟩ := step_detect_mono e
      (run e (initState n e t0) ops).1 op j d
      (Inv_run e ops (initState n e t0) (Inv_initState n e t0)) hj
    exact ⟨d', hj', hmono hfl⟩

/-- C10 witness: after a fire and an in-view tick, applying a tock keeps
the firstDetect flag set. -/
theorem c10_witness :
    ∃ d', (step envAlways (run envAlways (initState 1 envAlways 0)
        [Op.fire fsA, Op.tick 1]).1 Op.tock).1.detect[0]? = some d' ∧
      d'.firstDetect = true :=
  (c10_tock_frame envAlways 1 0 [Op.fire fsA, Op.tick 1] Op.tock 0 dSeen
    (initState 1 envAlways 0)).2 (by decide) (by decide)

/-! ### Notification lemmas -/

/-- What a detected notification emitted for a record says about that
record. -/
theorem detNote_some (d : DetectRecord) (x : Note) (fid : Nat)
    (h : detNote d = some x) :
    d.firstDetect = true ∧ x.isDet = true ∧ x.isRepFid fid = false ∧
    x.isDetFid fid = (d.fireId == fid) := by
  rw [detNote] at h
  split at h
  · cases h
    exact ⟨by assumption, rfl, rfl, rfl⟩
  · cases h

/-- What a reported notification emitted for a record says about that
record. -/
theorem repNote_some (r : ReportRecord) (x : Note) (fid : Nat)
    (h : repNote r = some x) :
    r.firstReport = true ∧ x.isDet = false ∧ x.isDetFid fid = false ∧
    x.isRepFid fid = (r.fireId == fid) := by
  rw [repNote] at h
  split at h
  · cases h
    exact ⟨by assumption, rfl, rfl, rfl⟩
  · cases h

/-- A record with its firstDetect flag set emits a detected notification
carrying its fireId. -/
theorem detNote_of_flag (d : DetectRecord) (h : d.firstDetect = true) :
    ∃ x, detNote d = some x ∧ x.isDetFid d.fireId = true := by
  refine ⟨_, by rw [detNote, if_pos h], ?_⟩
  simp [Note.isDetFid]

/-- Counting detected notifications distributes over concatenation. -/
theorem countDet_append (a b : List Note) (fid : Nat) :
    countDet (a ++ b) fid = countDet a fid + countDet b fid :=
  List.countP_append _ a b

/-- Counting reported notifications distributes over concatenation. -/
theorem countRep_append (a b : List Note) (fid : Nat) :
    countRep (a ++ b) fid = countRep a fid + countRep b fid :=
  List.countP_append _ a b

/-- The detected segment of a tock contains no reported notification. -/
theorem countRep_detSeg (ds : List DetectRecord) (fid : Nat) :
    countRep (ds.filterMap detNote) fid = 0 := by
  rw [countRep, List.countP_eq_zero]
  intro x hx
  obtain ⟨d, _, hd⟩ := List.mem_filterMap.mp hx
  simp [(detNote_some d x fid hd).2.2.1]

/-- The reported segment of a tock emits at most one notification per
record carrying the given fireId. -/
theorem countRep_repSeg_le (rs : List ReportRecord) (fid : Nat) :
    countRep (rs.filterMap repNote) fid ≤
      rs.countP (fun r => r.fireId == fid) := by
  induction rs with
  | nil => simp [countRep]
  | cons r rs ih =>
    rw [List.filterMap_cons]
    cases hr : repNote r with
    | none =>
      rw [List.countP_cons]
      exact le_trans ih (by omega)
    | some x =>
      have hx := (repNote_some r x fid hr).2.2.2
      rw [countRep] at ih ⊢
      rw [List.countP_cons, List.countP_cons, hx]
      split_ifs <;> omega

/-- If no record carrying the fireId has its flag set, the reported
segment of a tock emits nothing for that fireId. -/
theorem countRep_repSeg_zero (rs : List ReportRecord) (fid : Nat)
    (h : ∀ r ∈ rs, r.fireId = fid → r.firstReport = false) :
    countRep (rs.filterMap repNote) fid = 0 := by
  rw [countRep, List.countP_eq_zero]
  intro x hx
  obtain ⟨r, hmem, hr⟩ := List.mem_filterMap.mp hx
  obtain ⟨hflag, _, _, hiff⟩ := repNote_some r x fid hr
  rw [hiff]
  by_contra hc
  have : r.fireId = fid := by simpa using hc
  rw [h r hmem this] at hflag
  cases hflag

/-- A set flag on a record with the right fireId makes the tock emit at
least one reported notification for that fireId. -/
theorem countRep_repSeg_pos (rs : List ReportRecord) (fid : Nat)
    (r : ReportRecord) (hmem : r ∈ rs) (hfid : r.fireId = fid)
    (hflag : r.firstReport = true) :
    0 < countRep (rs.filterMap repNote) fid := by
  rw [countRep, List.countP_pos_iff]
  refine ⟨Note.reported r.fireId
    (match r.firstReporter with
      | some i => r.sat.getD i none
      | none => none) r.firstReporter r.firstReportedTo, ?_, ?_⟩
  · exact List.mem_filterMap.mpr ⟨r, hmem, by rw [repNote, if_pos hflag]⟩
  · simp [Note.isRepFid, hfid]

/-- Splitting a concatenation at a distinguished element: the element lies
in the left or the right part. -/
theorem append_split {α : Type} :
    ∀ (a : List α) (l1 : List α) (b l2 : List α) (x : α),
      a ++ b = l1 ++ x :: l2 →
      (∃ l2a, a = l1 ++ x :: l2a ∧ l2 = l2a ++ b) ∨
      (∃ l1b, l1 = a ++ l1b ∧ b = l1b ++ x :: l2)
  | [], l1, b, l2, x, h => Or.inr ⟨l1, rfl, by simpa using h⟩
  | y :: a', [], b, l2, x, h => by
    simp only [List.cons_append, List.nil_append, List.cons.injEq] at h
    exact Or.inl ⟨a', by rw [h.1]; rfl, h.2.symm⟩
  | y :: a', z :: l1', b, l2, x, h => by
    simp only [List.cons_append, List.cons.injEq] at h
    rcases append_split a' l1' b l2 x h.2 with ⟨l2a, ha, hl⟩ | ⟨l1b, hl, hb⟩
    · exact Or.inl ⟨l2a, by simp [ha, h.1], hl⟩
    · exact Or.inr ⟨l1b, by simp [hl, h.1], hb⟩

/-- A detected notification for a fireId emitted anywhere during a run
leaves, at the end of the run, a detect record with that fireId whose
firstDetect flag is still set (the flag is never cleared). -/
theorem run_det_note_source (e : Env) (fid : Nat) :
    ∀ (ops : List Op) (s : Constellation), Inv s →
      ∀ x ∈ (run e s ops).2, x.isDetFid fid = true →
      ∃ (j : Nat) (d : DetectRecord), (run e s ops).1.detect[j]? = some d ∧
        d.fireId = fid ∧ d.firstDetect = true
  | [], s, hInv, x, hx, hfid => absurd hx (by simp [run_nil])
  | op :: ops, s, hInv, x, hx, hfid => by
    rw [run_cons] at hx ⊢
    rcases List.mem_append.mp hx with hx1 | hx2
    · cases op with
      | fire f => simp [step] at hx1
      | ground g => simp [step] at hx1
      | tick dt => simp [step] at hx1
      | init t => simp [step] at hx1
      | tock =>
        have hx1' : x ∈ s.detect.filterMap detNote ++ s.report.filterMap repNote :=
          hx1
        rcases List.mem_append.mp hx1' with hxd | hxr
        · obtain ⟨d, hdmem, hd⟩ := List.mem_filterMap.mp hxd
          obtain ⟨hflag, _, _, hdfid⟩ := detNote_some d x fid hd
          have hdfid' : d.fireId = fid := by
            rw [hfid] at hdfid
            simpa using hdfid.symm
          obtain ⟨j, hj⟩ := List.mem_iff_getElem?.mp hdmem
          have hj' : (step e s Op.tock).1.detect[j]? = some d := hj
          obtain ⟨d', hj2, hfid2, hmono, _⟩ := run_detect_mono e ops
            (step e s Op.tock).1 j d (Inv_step e s Op.tock hInv) hj'
          exact ⟨j, d', hj2, hfid2.trans hdfid', hmono hflag⟩
        · obtain ⟨r, _, hr⟩ := List.mem_filterMap.mp hxr
          have := (repNote_some r x fid hr).2.2.1
          rw [hfid] at this
          cases this
    · exact run_det_note_source e fid ops (step e s op).1
        (Inv_step e s op hInv) x hx2 hfid

/-- In a run during which no satellite elevation ever reaches the minimum
elevation constraint, every detect flag stays clear and no detected
notification is emitted. -/
theorem run_no_detect (e : Env)
    (hnv : ∀ (i : Nat) (t : Time) (p : ℚ × ℚ), e.elev i t p < e.minElevFire i t) :
    ∀ (ops : List Op) (s : Constellation),
      (∀ d ∈ s.detect, d.firstDetect = false) →
      (∀ x ∈ (run e s ops).2, x.isDet = false) ∧
      (∀ d ∈ (run e s ops).1.detect, d.firstDetect = false)
  | [], s, hall => ⟨by simp [run_nil], hall⟩
  | op :: ops, s, hall => by
    have hview : ∀ (tN : Time) (fire : Fire) (i : Nat),
        inViewAt e tN fire i = false := by
      intro tN fire i
      rw [inViewAt, check_in_view]
      exact decide_eq_false
        (not_le.mpr (hnv i tN (fire.latitude, fire.longitude)))
    have hstep : ∀ d ∈ (step e s op).1.detect, d.firstDetect = false := by
      cases op with
      | fire f =>
        intro d hd
        rcases List.mem_append.mp hd with hd1 | hd2
        · exact hall d hd1
        · rw [List.mem_singleton.mp hd2]
      | ground g =>
        intro d hd
        have hd' : d ∈ s.detect := by
          revert hd
          show d ∈ (s.on_ground g).detect → d ∈ s.detect
          rw [Constellation.on_ground]
          split <;> exact id
        exact hall d hd'
      | init t => exact hall
      | tock => exact hall
      | tick dt =>
        exact tickRecords_pres_fst e (s.time + dt) s.grounds s.fires
          (fun d => d.firstDetect = false)
          (fun i fire d r hP => by
            show (procFire e (s.time + dt) s.grounds i fire d r).1.firstDetect =
              false
            have hP' : d.firstDetect = false := hP
            rw [procFire_fst_firstDetect, hP', hview, Bool.false_and,
              Bool.or_false])
          (List.range s.numSats) (s.detect, s.report) hall
    have hnotes : ∀ x ∈ (step e s op).2, x.isDet = false := by
      cases op with
      | fire f => simp [step]
      | ground g => simp [step]
      | init t => simp [step]
      | tick dt => simp [step]
      | tock =>
        intro x hx
        have hx' : x ∈ s.detect.filterMap detNote ++ s.report.filterMap repNote :=
          hx
        have hdet0 : s.detect.filterMap detNote = [] := by
          rw [List.filterMap_eq_nil_iff]
          intro d hd
          rw [detNote, if_neg]
          rw [hall d hd]
          simp
        rw [hdet0, List.nil_append] at hx'
        obtain ⟨r, _, hr⟩ := List.mem_filterMap.mp hx'
        exact (repNote_some r x 0 hr).2.1
    have ih := run_no_detect e hnv ops (step e s op).1 hstep
    refine ⟨?_, ?_⟩
    · intro x hx
      rw [run_cons] at hx
      rcases List.mem_append.mp hx with hx1 | hx2
      · exact hnotes x hx1
      · exact ih.1 x hx2
    · rw [run_cons]
      exact ih.2

/-- C1 (amended): a Detected notification for a fire is not emitted at most
once; it is re-emitted by every tock once the fire's firstDetect flag has
been latched, because the flag is never cleared (the clearing line is
commented out in the source).  What does hold: if no satellite ever comes
into view of anything, no Detected notification is ever emitted; and once
some Detected notification for a fireId has been emitted, appending one
more tock to the run strictly increases the number of Detected
notifications for that fireId. -/
theorem c1_amended (n : Nat) (e : Env) (t0 : Time) (ops : List Op) (fid : Nat) :
    ((∀ (i : Nat) (t : Time) (p : ℚ × ℚ), e.elev i t p < e.minElevFire i t) →
      ∀ x ∈ (run e (initState n e t0) ops).2, x.isDet = false) ∧
    (0 < countDet (run e (initState n e t0) ops).2 fid →
      countDet (run e (initState n e t0) ops).2 fid <
        countDet (run e (initState n e t0) (ops ++ [Op.tock])).2 fid) := by
  constructor
  · intro hnv
    exact (run_no_detect e hnv ops (initState n e t0)
      (by intro d hd; simp [initState] at hd)).1
  · intro hpos
    rw [countDet] at hpos
    obtain ⟨x, hx, hfid⟩ := List.countP_pos_iff.mp hpos
    obtain ⟨j, d, hj, hdfid, hdflag⟩ := run_det_note_source e fid ops
      (initState n e t0) (Inv_initState n e t0) x hx hfid
    rw [run_append]
    rw [show (run e (run e (initState n e t0) ops).1 [Op.tock]).2 =
      ((run e (initState n e t0) ops).1.tock).2 ++ [] from rfl]
    rw [List.append_nil, countDet_append]
    have hmem : d ∈ (run e (initState n e t0) ops).1.detect :=
      List.mem_iff_getElem?.mpr ⟨j, hj⟩
    obtain ⟨x', hx', hx'fid⟩ := detNote_of_flag d hdflag
    have hpos2 : 0 < countDet ((run e (initState n e t0) ops).1.tock).2 fid := by
      rw [show ((run e (initState n e t0) ops).1.tock).2 =
        (run e (initState n e t0) ops).1.detect.filterMap detNote ++
          (run e (initState n e t0) ops).1.report.filterMap repNote from rfl]
      rw [countDet_append]
      have : 0 < countDet
          ((run e (initState n e t0) ops).1.detect.filterMap detNote) fid := by
        rw [countDet, List.countP_pos_iff]
        refine ⟨x', List.mem_filterMap.mpr ⟨d, hmem, hx'⟩, ?_⟩
        rw [← hdfid]
        exact hx'fid
      omega
    omega

/-- C1 witness: the amended statement applied to the concrete two-tock run
of the counterexample — one Detected notification has been emitted after
the first tock, so the second tock emits another. -/
theorem c1_witness :
    countDet (run envAlways (initState 1 envAlways 0)
        [Op.fire fsA, Op.tick 1, Op.tock]).2 1 <
      countDet (run envAlways (initState 1 envAlways 0)
        ([Op.fire fsA, Op.tick 1, Op.tock] ++ [Op.tock])).2 1 :=
  (c1_amended 1 envAlways 0 [Op.fire fsA, Op.tick 1, Op.tock] 1).2 (by decide)

/-- The fire loop preserves any per-record count over the report list that
its body preserves pointwise, on aligned lists. -/
theorem zip3With_snd_countP
    (f : Fire → DetectRecord → ReportRecord → DetectRecord × ReportRecord)
    (g : ReportRecord → Bool)
    (hg : ∀ fire d r, g ((f fire d r).2) = g r) :
    ∀ (fs : List Fire) (ds : List DetectRecord) (rs : List ReportRecord),
      ds.length = fs.length → rs.length = fs.length →
      (zip3With f fs ds rs).2.countP g = rs.countP g
  | [], [], [], _, _ => by simp [zip3With]
  | fire :: fs, d :: ds, r :: rs, h1, h2 => by
    have ih := zip3With_snd_countP f g hg fs ds rs (by simpa using h1)
      (by simpa using h2)
    simp only [zip3With]
    rw [List.countP_cons, List.countP_cons, ih, hg]
  | [], d :: ds, rs, h1, _ => by simp at h1
  | [], [], r :: rs, _, h2 => by simp at h2
  | fire :: fs, [], rs, h1, _ => by simp at h1
  | fire :: fs, d :: ds, [], _, h2 => by simp at h2

/-- The double loop of a tick preserves any per-record count over the
report list that the fire-loop body preserves pointwise. -/
theorem tickRecords_snd_countP (e : Env) (tNext : Time) (grounds : List GroundRow)
    (fires : List Fire) (g : ReportRecord → Bool)
    (hg : ∀ i fire d r, g ((procFire e tNext grounds i fire d r).2) = g r) :
    ∀ (is : List Nat) (p : List DetectRecord × List ReportRecord),
      p.1.length = fires.length → p.2.length = fires.length →
      (tickRecords e tNext grounds fires is p).2.countP g = p.2.countP g
  | [], p, _, _ => rfl
  | i :: is, p, h1, h2 => by
    have hl := zip3With_length (procFire e tNext grounds i) fires p.1 p.2 h1 h2
    have ih := tickRecords_snd_countP e tNext grounds fires g hg is
      (zip3With (procFire e tNext grounds i) fires p.1 p.2) hl.1 hl.2
    rw [show tickRecords e tNext grounds fires (i :: is) p =
      tickRecords e tNext grounds fires is
        (zip3With (procFire e tNext grounds i) fires p.1 p.2) from rfl]
    rw [ih]
    exact zip3With_snd_countP (procFire e tNext grounds i) g (hg i)
      fires p.1 p.2 h1 h2

/-- A predicate counted exactly once in a list holds of a unique value. -/
theorem countP_eq_one_unique {α : Type} (l : List α) (p : α → Bool)
    (h : l.countP p = 1) (a b : α) (ha : a ∈ l) (hpa : p a = true)
    (hb : b ∈ l) (hpb : p b = true) : a = b := by
  rw [List.countP_eq_length_filter] at h
  obtain ⟨c, hc⟩ := List.length_eq_one.mp h
  have ha' : a ∈ l.filter p := List.mem_filter.mpr ⟨ha, hpa⟩
  have hb' : b ∈ l.filter p := List.mem_filter.mpr ⟨hb, hpb⟩
  rw [hc] at ha' hb'
  rw [List.mem_singleton.mp ha', List.mem_singleton.mp hb']

/-- Once every report record carrying a fireId is done (flag clear,
reporter set) and no further fire event reuses the fireId, the rest of the
run emits no reported notification for it and keeps the records done. -/
theorem run_rep_done (e : Env) (fid : Nat) :
    ∀ (ops : List Op) (s : Constellation),
      (∀ r ∈ s.report, r.fireId = fid →
        r.firstReport = false ∧ r.firstReporter ≠ none) →
      fid ∉ opsFids ops →
      countRep (run e s ops).2 fid = 0 ∧
      (∀ r ∈ (run e s ops).1.report, r.fireId = fid →
        r.firstReport = false ∧ r.firstReporter ≠ none)
  | [], s, hdone, _ => ⟨by simp [run_nil, countRep], hdone⟩
  | op :: ops, s, hdone, hfid => by
    have hstep : ∀ r ∈ (step e s op).1.report, r.fireId = fid →
        r.firstReport = false ∧ r.firstReporter ≠ none := by
      cases op with
      | fire f =>
        intro r hr hrfid
        rcases List.mem_append.mp hr with h1 | h2
        · exact hdone r h1 hrfid
        · exfalso
          rw [List.mem_singleton.mp h2] at hrfid
          have hf : f.fireId = fid := hrfid
          apply hfid
          rw [show opsFids (Op.fire f :: ops) = f.fireId :: opsFids ops from rfl,
            hf]
          exact List.mem_cons_self _ _
      | ground g =>
        intro r hr
        refine hdone r ?_
        revert hr
        show r ∈ (s.on_ground g).report → r ∈ s.report
        rw [Constellation.on_ground]
        split <;> exact id
      | init t => exact hdone
      | tock =>
        intro r' hr' hrfid
        have hr'' : r' ∈ s.report.map (fun r : ReportRecord =>
            ({ r with firstReport := false } : ReportRecord)) := hr'
        obtain ⟨r, hrm, hreq⟩ := List.mem_map.mp hr''
        have hrfid' : r.fireId = fid := by rw [← hreq] at hrfid; exact hrfid
        refine ⟨by rw [← hreq], ?_⟩
        rw [← hreq]
        exact (hdone r hrm hrfid').2
      | tick dt =>
        exact tickRecords_pres_snd e (s.time + dt) s.grounds s.fires
          (fun r => r.fireId = fid →
            r.firstReport = false ∧ r.firstReporter ≠ none)
          (fun i fire d r hQ => by
            intro hfid'
            have hrfid : r.fireId = fid := by
              rw [← procFire_snd_fireId e (s.time + dt) s.grounds i fire d r]
              exact hfid'
            obtain ⟨hf, hrep⟩ := hQ hrfid
            have hk := procFire_snd_keep e (s.time + dt) s.grounds i fire d r hrep
            exact ⟨hk.1.trans hf, by rw [hk.2.1]; exact hrep⟩)
          (List.range s.numSats) (s.detect, s.report) hdone
    have hfid' : fid ∉ opsFids ops := by
      intro hc
      apply hfid
      cases op with
      | fire f =>
        rw [show opsFids (Op.fire f :: ops) = f.fireId :: opsFids ops from rfl]
        exact List.mem_cons_of_mem _ hc
      | ground g => exact hc
      | tick dt => exact hc
      | tock => exact hc
      | init t => exact hc
    have hnotes : countRep (step e s op).2 fid = 0 := by
      cases op with
      | fire f => simp [step, countRep]
      | ground g => simp [step, countRep]
      | tick dt => simp [step, countRep]
      | init t => simp [step, countRep]
      | tock =>
        rw [show (step e s Op.tock).2 =
          s.detect.filterMap detNote ++ s.report.filterMap repNote from rfl]
        rw [countRep_append, countRep_detSeg,
          countRep_repSeg_zero s.report fid (fun r hr hrfid => (hdone r hr hrfid).1)]
    have ih := run_rep_done e fid ops (step e s op).1 hstep hfid'
    rw [run_cons]
    refine ⟨?_, ih.2⟩
    rw [countRep_append, hnotes, ih.1]

/-- If at most one report record (now or ever, via future fire events)
carries a fireId, the whole run emits at most one reported notification for
it. -/
theorem run_rep_bound (e : Env) (fid : Nat) :
    ∀ (ops : List Op) (s : Constellation), Inv s →
      s.report.countP (fun r => r.fireId == fid) + (opsFids ops).count fid ≤ 1 →
      countRep (run e s ops).2 fid ≤ 1
  | [], s, _, _ => by simp [run_nil, countRep]
  | op :: ops, s, hInv, hsum => by
    rw [run_cons, countRep_append]
    cases op with
    | fire f =>
      have hnotes : countRep (step e s (Op.fire f)).2 fid = 0 := by
        simp [step, countRep]
      have hsum' : (s.on_fire f).report.countP (fun r => r.fireId == fid) +
          (opsFids ops).count fid ≤ 1 := by
        have hone : (s.on_fire f).report.countP (fun r => r.fireId == fid) =
            s.report.countP (fun r => r.fireId == fid) +
              (if f.fireId = fid then 1 else 0) := by
          rw [show (s.on_fire f).report = s.report ++
            [{ fireId := f.fireId, sat := List.replicate s.numSats none,
               firstReport := false, firstReporter := none,
               firstReportedTo := none }] from rfl]
          rw [List.countP_append, List.countP_cons, List.countP_nil]
          by_cases hf : f.fireId = fid
          · simp [hf]
          · simp [hf]
        have htwo : (opsFids (Op.fire f :: ops)).count fid =
            (opsFids ops).count fid + (if f.fireId = fid then 1 else 0) := by
          rw [show opsFids (Op.fire f :: ops) = f.fireId :: opsFids ops from rfl,
            List.count_cons]
          by_cases hf : f.fireId = fid
          · simp [hf]
          · simp [hf]
        rw [htwo] at hsum
        rw [hone]
        omega
      have ih := run_rep_bound e fid ops (s.on_fire f)
        (Inv_on_fire s f hInv) hsum'
      rw [hnotes]
      simpa using ih
    | ground g =>
      have hrep : (s.on_ground g).report = s.report := by
        rw [Constellation.on_ground]
        split <;> rfl
      have ih := run_rep_bound e fid ops (s.on_ground g)
        (Inv_on_ground s g hInv) (by rw [hrep]; exact hsum)
      rw [show countRep (step e s (Op.ground g)).2 fid = 0 from by
        simp [step, countRep]]
      simpa using ih
    | init t =>
      have ih := run_rep_bound e fid ops (s.reinit e t)
        (Inv_reinit e t s hInv) hsum
      rw [show countRep (step e s (Op.init t)).2 fid = 0 from by
        simp [step, countRep]]
      simpa using ih
    | tick dt =>
      have hcount : (s.tick e dt).report.countP (fun r => r.fireId == fid) =
          s.report.countP (fun r => r.fireId == fid) := by
        rw [tick_def]
        exact tickRecords_snd_countP e (s.time + dt) s.grounds s.fires
          (fun r => r.fireId == fid)
          (fun i fire d r => by
            show ((procFire e (s.time + dt) s.grounds i fire d r).2.fireId ==
              fid) = (r.fireId == fid)
            rw [procFire_snd_fireId e (s.time + dt) s.grounds i fire d r])
          (List.range s.numSats) (s.detect, s.report) hInv.1 hInv.2.1
      have ih := run_rep_bound e fid ops (s.tick e dt)
        (Inv_tick e dt s hInv) (by rw [hcount]; exact hsum)
      rw [show countRep (step e s (Op.tick dt)).2 fid = 0 from by
        simp [step, countRep]]
      simpa using ih
    | tock =>
      have htockrep : (s.tock).1.report.countP (fun r => r.fireId == fid) =
          s.report.countP (fun r => r.fireId == fid) := by
        rw [show (s.tock).1.report = s.report.map (fun r : ReportRecord =>
          ({ r with firstReport := false } : ReportRecord)) from rfl]
        rw [List.countP_map]
        rfl
      by_cases harmed : ∃ r ∈ s.report, r.fireId = fid ∧ r.firstReport = true
      · obtain ⟨r0, hmem0, hfid0, hflag0⟩ := harmed
        have hpos : 0 < s.report.countP (fun r => r.fireId == fid) :=
          List.countP_pos_iff.mpr ⟨r0, hmem0, by simp [hfid0]⟩
        have hcp1 : s.report.countP (fun r => r.fireId == fid) = 1 := by
          omega
        have hc0 : (opsFids ops).count fid = 0 := by
          have heq : opsFids (Op.tock :: ops) = opsFids ops := rfl
          rw [heq] at hsum
          omega
        have hfidnot : fid ∉ opsFids ops := List.count_eq_zero.mp hc0
        have hrep0 : r0.firstReporter ≠ none := by
          obtain ⟨j, hj⟩ := List.mem_iff_getElem?.mp hmem0
          exact (hInv.2.2.2.1 j r0 hj).2.2 hflag0
        have hdone : ∀ r' ∈ (s.tock).1.report, r'.fireId = fid →
            r'.firstReport = false ∧ r'.firstReporter ≠ none := by
          intro r' hr' hrfid
          have hr'' : r' ∈ s.report.map (fun r : ReportRecord =>
              ({ r with firstReport := false } : ReportRecord)) := hr'
          obtain ⟨r, hrm, hreq⟩ := List.mem_map.mp hr''
          have hrfid' : r.fireId = fid := by rw [← hreq] at hrfid; exact hrfid
          have hr0 : r = r0 := countP_eq_one_unique s.report _ hcp1 r r0 hrm
            (by simp [hrfid']) hmem0 (by simp [hfid0])
          refine ⟨by rw [← hreq], ?_⟩
          rw [← hreq]
          show r.firstReporter ≠ none
          rw [hr0]
          exact hrep0
        have hrest := run_rep_done e fid ops (s.tock).1 hdone hfidnot
        have htock : countRep (step e s Op.tock).2 fid ≤ 1 := by
          rw [show (step e s Op.tock).2 =
            s.detect.filterMap detNote ++ s.report.filterMap repNote from rfl]
          rw [countRep_append, countRep_detSeg]
          have := countRep_repSeg_le s.report fid
          omega
        rw [show (run e (step e s Op.tock).1 ops).2 =
          (run e (s.tock).1 ops).2 from rfl]
        rw [hrest.1]
        omega
      · push_neg at harmed
        have h0 : countRep (step e s Op.tock).2 fid = 0 := by
          rw [show (step e s Op.tock).2 =
            s.detect.filterMap detNote ++ s.report.filterMap repNote from rfl]
          rw [countRep_append, countRep_detSeg,
            countRep_repSeg_zero s.report fid
              (fun r hr hrfid => by simpa using harmed r hr hrfid)]
        have hsum' : (s.tock).1.report.countP (fun r => r.fireId == fid) +
            (opsFids ops).count fid ≤ 1 := by
          rw [htockrep]
          exact hsum
        have ih := run_rep_bound e fid ops (s.tock).1 (Inv_tock s hInv) hsum'
        rw [h0]
        simpa using ih

/-- C7: a Reported notification for a fire is emitted at most once across
the run (assuming, as the data model states, that fireId values are unique
among the fire-started events), because tock clears firstReport after
emitting, firstReporter stays set, and the flag can only be re-armed while
firstReporter is still null; moreover after any tock every firstReport flag
is clear. -/
theorem c7_at_most_once (n : Nat) (e : Env) (t0 : Time) (ops : List Op)
    (fid : Nat) (hnodup : (opsFids ops).count fid ≤ 1) :
    countRep (run e (initState n e t0) ops).2 fid ≤ 1 ∧
    ∀ r ∈ (run e (initState n e t0) (ops ++ [Op.tock])).1.report,
      r.firstReport = false := by
  constructor
  · apply run_rep_bound e fid ops (initState n e t0) (Inv_initState n e t0)
    simpa [initState] using hnodup
  · intro r hr
    have heq : (run e (initState n e t0) (ops ++ [Op.tock])).1 =
        ((run e (initState n e t0) ops).1.tock).1 := by
      rw [run_append]
      rfl
    rw [heq] at hr
    have hr' : r ∈ (run e (initState n e t0) ops).1.report.map
        (fun r : ReportRecord =>
          ({ r with firstReport := false } : ReportRecord)) := hr
    obtain ⟨r0, _, hreq⟩ := List.mem_map.mp hr'
    rw [← hreq]

/-- C7 witness: with a ground station, one fire and one in-view tick, the
run emits its reported notification and the bound of one is met; the
hypothesis (fireId 1 occurs once among the fire events) is discharged by
computation. -/
theorem c7_witness :
    countRep (run envAlways (initState 1 envAlways 0)
      [Op.ground glC, Op.fire fsA, Op.tick 1, Op.tock]).2 1 ≤ 1 :=
  (c7_at_most_once 1 envAlways 0 [Op.ground glC, Op.fire fsA, Op.tick 1, Op.tock]
    1 (by decide)).1

/-- A reported notification for a fireId emitted during a run is always
preceded, in the emission order, by a detected notification for the same
fireId: within the tock that emits it, the whole detect loop has already
run, and the paired detect record's flag is set whenever the report flag
is. -/
theorem run_rep_after_det (e : Env) (fid : Nat) :
    ∀ (ops : List Op) (s : Constellation), Inv s →
      ∀ (l1 l2 : List Note) (x : Note),
        (run e s ops).2 = l1 ++ x :: l2 → x.isRepFid fid = true →
        ∃ y ∈ l1, y.isDetFid fid = true
  | [], s, hInv, l1, l2, x, heq, hx => by
    have heq' : ([] : List Note) = l1 ++ x :: l2 := heq
    cases l1 <;> simp at heq'
  | op :: ops, s, hInv, l1, l2, x, heq, hx => by
    have heq' : (step e s op).2 ++ (run e (step e s op).1 ops).2 =
        l1 ++ x :: l2 := heq
    rcases append_split _ _ _ _ _ heq' with ⟨l2a, hstep, _⟩ | ⟨l1b, hl1, hrest⟩
    · cases op with
      | fire f =>
        have hnil : ([] : List Note) = l1 ++ x :: l2a := hstep
        cases l1 <;> simp at hnil
      | ground g =>
        have hnil : ([] : List Note) = l1 ++ x :: l2a := hstep
        cases l1 <;> simp at hnil
      | tick dt =>
        have hnil : ([] : List Note) = l1 ++ x :: l2a := hstep
        cases l1 <;> simp at hnil
      | init t =>
        have hnil : ([] : List Note) = l1 ++ x :: l2a := hstep
        cases l1 <;> simp at hnil
      | tock =>
        have hsplit2 : s.detect.filterMap detNote ++ s.report.filterMap repNote =
            l1 ++ x :: l2a := hstep
        rcases append_split _ _ _ _ _ hsplit2 with ⟨l2b, hdet, _⟩ | ⟨l1c, hl1c, hrep⟩
        · have hxmem : x ∈ s.detect.filterMap detNote := by
            rw [hdet]
            exact List.mem_append_right _ (List.mem_cons_self _ _)
          obtain ⟨d, _, hdn⟩ := List.mem_filterMap.mp hxmem
          have hfalse := (detNote_some d x fid hdn).2.2.1
          rw [hx] at hfalse
          cases hfalse
        · have hxmem : x ∈ s.report.filterMap repNote := by
            rw [hrep]
            exact List.mem_append_right _ (List.mem_cons_self _ _)
          obtain ⟨r, hrmem, hrn⟩ := List.mem_filterMap.mp hxmem
          obtain ⟨hflag, _, _, hiff⟩ := repNote_some r x fid hrn
          have hrfid : r.fireId = fid := by
            rw [hx] at hiff
            simpa using hiff.symm
          obtain ⟨j, hj⟩ := List.mem_iff_getElem?.mp hrmem
          obtain ⟨hlen1, hlen2, hdetI, hrepI, hpairI⟩ := hInv
          have hjlt : j < s.report.length := by
            by_contra hc
            push_neg at hc
            rw [List.getElem?_eq_none hc] at hj
            cases hj
          have hd : s.detect[j]? = some (s.detect.get ⟨j, by omega⟩) :=
            List.getElem?_eq_getElem (by omega)
          have hdflag : (s.detect.get ⟨j, by omega⟩).firstDetect = true :=
            hpairI j _ r hd hj hflag
          have hdfid : (s.detect.get ⟨j, by omega⟩).fireId = fid := by
            have h1 := (hdetI j _ hd).1
            have h2 := (hrepI j r hj).1
            rw [h1] at h2
            exact (Option.some_inj.mp h2).trans hrfid
          obtain ⟨y, hyn, hyfid⟩ := detNote_of_flag _ hdflag
          refine ⟨y, ?_, by rw [hdfid] at hyfid; exact hyfid⟩
          rw [hl1c]
          refine List.mem_append_left _ ?_
          exact List.mem_filterMap.mpr
            ⟨_, List.mem_iff_getElem?.mpr ⟨j, hd⟩, hyn⟩
    · obtain ⟨y, hy, hyfid⟩ := run_rep_after_det e fid ops (step e s op).1
        (Inv_step e s op hInv) l1b l2 x hrest hx
      exact ⟨y, by rw [hl1]; exact List.mem_append_right _ hy, hyfid⟩

/-- C6: a Reported notification for a fire is never emitted before a
Detected notification for the same fire — in the emission order of any run,
every reported notification for a fireId is preceded by a detected
notification for that fireId; and within any single tock, the detected
notifications (exactly the detect records with the flag set, in
fire-iteration order) all come before the reported notifications. -/
theorem c6_ordering (n : Nat) (e : Env) (t0 : Time) (ops : List Op) (fid : Nat) :
    (∀ (l1 l2 : List Note) (x : Note),
      (run e (initState n e t0) ops).2 = l1 ++ x :: l2 →
      x.isRepFid fid = true →
      ∃ y ∈ l1, y.isDetFid fid = true) ∧
    (∀ s' : Constellation,
      ∃ rs, (s'.tock).2 = s'.detect.filterMap detNote ++ rs ∧
        ∀ z ∈ rs, z.isDet = false) := by
  constructor
  · exact run_rep_after_det e fid ops (initState n e t0) (Inv_initState n e t0)
  · intro s'
    refine ⟨s'.report.filterMap repNote, rfl, ?_⟩
    intro z hz
    obtain ⟨r, _, hr⟩ := List.mem_filterMap.mp hz
    exact (repNote_some r z 0 hr).2.1

/-- C6 witness: on a run with a ground station, one fire and one in-view
tick, the tock emits a detected then a reported notification; the reported
notification at position 1 has the detected one for the same fireId before
it. -/
theorem c6_witness :
    ∃ y ∈ [Note.detected 1 (some 1) (some 0)], Note.isDetFid 1 y = true :=
  (c6_ordering 1 envAlways 0 [Op.ground glC, Op.fire fsA, Op.tick 1, Op.tock] 1).1
    [Note.detected 1 (some 1) (some 0)] []
    (Note.reported 1 (some 1) (some 0) (some 0))
    (by decide) (by decide)

end FireSat
